import Mathlib

/-!
Verification of core components of the firefly compiler/runtime.

Each component of the repository that the specification describes is
shallow-embedded below, translated from the Rust sources:

* `Interner` — `compiler/intern/src/symbols.rs`
* `Mfa` — `library/rt/src/function/mfa.rs`
* `RtList` — `library/rt/src/term/list.rs`
* `Sched` — `runtimes/minimal/src/scheduler.rs`
* `K2S` — `compiler/syntax_kernel/src/passes/translate/kernel_to_ssa/mod.rs`

Machine integers are modelled as `Nat`/`Int` with explicit bounds where
overflow matters; fallible code returns `Option`/`Except`; panics are
modelled as a distinguished outcome constructor.
-/

namespace Firefly

/-! ## Symbol interner (`compiler/intern/src/symbols.rs`)

A `Symbol` is a 32-bit identifier; we model it as `Nat`.  The constants and
the `__SYMBOLS` table below are transcribed from the autogenerated
`symbols.rs`, and `is_keyword` / `is_reserved` / `is_directive` are direct
translations of the three `match` functions at the bottom of that file.
-/

namespace Interner

abbrev Symbol := Nat

namespace symbols

def False : Symbol := 0
def True : Symbol := 1
def Empty : Symbol := 2
def After : Symbol := 3
def And : Symbol := 4
def AndAlso : Symbol := 5
def Band : Symbol := 6
def Begin : Symbol := 7
def Bnot : Symbol := 8
def Bor : Symbol := 9
def Bsl : Symbol := 10
def Bsr : Symbol := 11
def Bxor : Symbol := 12
def Case : Symbol := 13
def Catch : Symbol := 14
def Div : Symbol := 15
def End : Symbol := 16
def Fun : Symbol := 17
def If : Symbol := 18
def Not : Symbol := 19
def Of : Symbol := 20
def Or : Symbol := 21
def OrElse : Symbol := 22
def Receive : Symbol := 23
def Rem : Symbol := 24
def Try : Symbol := 25
def When : Symbol := 26
def Xor : Symbol := 27
def Behaviour : Symbol := 28
def Callback : Symbol := 29
def Compile : Symbol := 30
def Deprecated : Symbol := 31
def Export : Symbol := 32
def Import : Symbol := 33
def Module : Symbol := 34
def Nifs : Symbol := 35
def OnLoad : Symbol := 36
def Spec : Symbol := 37
def Vsn : Symbol := 38
def Define : Symbol := 39
def Elif : Symbol := 40
def Else : Symbol := 41
def Endif : Symbol := 42
def Error : Symbol := 43
def File : Symbol := 44
def Ifdef : Symbol := 45
def Ifndef : Symbol := 46
def Include : Symbol := 47
def IncludeLib : Symbol := 48
def Line : Symbol := 49
def Undef : Symbol := 50
def Warning : Symbol := 51
def Bang : Symbol := 52
def Star : Symbol := 53
def Plus : Symbol := 54
def PlusPlus : Symbol := 55
def Minus : Symbol := 56
def MinusMinus : Symbol := 57
def Slash : Symbol := 58
def NotEqual : Symbol := 59
def Lt : Symbol := 60
def NotEqualStrict : Symbol := 61
def EqualStrict : Symbol := 62
def Lte : Symbol := 63
def Equal : Symbol := 64
def Gt : Symbol := 65
def Gte : Symbol := 66
def Underscore : Symbol := 67
def BadFilter : Symbol := 68
def BadGenerator : Symbol := 69
def BadSize : Symbol := 70
def BadValue : Symbol := 71
def Badarg : Symbol := 72
def Badmap : Symbol := 73
def Badmatch : Symbol := 74
def Badrecord : Symbol := 75
def CaseClause : Symbol := 76
def FunctionClause : Symbol := 77
def IfClause : Symbol := 78
def NifError : Symbol := 79
def TryClause : Symbol := 80
def IsAtom : Symbol := 81
def IsBinary : Symbol := 82
def IsBitstring : Symbol := 83
def IsBoolean : Symbol := 84
def IsFloat : Symbol := 85
def IsFunction : Symbol := 86
def IsInteger : Symbol := 87
def IsList : Symbol := 88
def IsMap : Symbol := 89
def IsNumber : Symbol := 90
def IsPid : Symbol := 91
def IsPort : Symbol := 92
def IsRecord : Symbol := 93
def IsReference : Symbol := 94
def IsTuple : Symbol := 95
def Abs : Symbol := 96
def Apply : Symbol := 97
def BinaryPart : Symbol := 98
def BitSize : Symbol := 99
def BuildStacktrace : Symbol := 100
def ByteSize : Symbol := 101
def Ceil : Symbol := 102
def Element : Symbol := 103
def Float : Symbol := 104
def Floor : Symbol := 105
def Hd : Symbol := 106
def IsMapKey : Symbol := 107
def Length : Symbol := 108
def MakeFun : Symbol := 109
def MapGet : Symbol := 110
def MapSize : Symbol := 111
def MatchFail : Symbol := 112
def Node : Symbol := 113
def Raise : Symbol := 114
def RecvPeekMessage : Symbol := 115
def RecvWaitTimeout : Symbol := 116
def RemoveMessage : Symbol := 117
def Round : Symbol := 118
def SELF : Symbol := 119
def Setelement : Symbol := 120
def Size : Symbol := 121
def Throw : Symbol := 122
def Tl : Symbol := 123
def Trunc : Symbol := 124
def TupleSize : Symbol := 125
def CompilerGenerated : Symbol := 126
def Id : Symbol := 127
def EXIT : Symbol := 128
def MODULE : Symbol := 129
def MODULE_STRING : Symbol := 130
def All : Symbol := 131
def Attributes : Symbol := 132
def BehaviourInfo : Symbol := 133
def Bits : Symbol := 134
def BitsCloseWritable : Symbol := 135
def BitsInitWritable : Symbol := 136
def Bitstring : Symbol := 137
def Bytes : Symbol := 138
def Erlang : Symbol := 139
def Exit : Symbol := 140
def Exports : Symbol := 141
def Infinity : Symbol := 142
def Inline : Symbol := 143
def Integer : Symbol := 144
def LetrecGoto : Symbol := 145
def ListComprehension : Symbol := 146
def ModuleInfo : Symbol := 147
def Native : Symbol := 148
def New : Symbol := 149
def Nif : Symbol := 150
def NifStart : Symbol := 151
def NoInline : Symbol := 152
def Ok : Symbol := 153
def Other : Symbol := 154
def ReceiveTimeout : Symbol := 155
def RecordInfo : Symbol := 156
def RecvNext : Symbol := 157
def RecvPeek : Symbol := 158
def RecvPop : Symbol := 159
def RecvStart : Symbol := 160
def RecvWait : Symbol := 161
def Send : Symbol := 162
def SingleUse : Symbol := 163
def SkipClause : Symbol := 164
def Undefined : Symbol := 165
def Used : Symbol := 166
def Utf16 : Symbol := 167
def Utf32 : Symbol := 168
def Utf8 : Symbol := 169

/-- The `__SYMBOLS` table: the pre-registered (symbol, string) pairs. -/
def SYMBOLS : List (Symbol × String) := [
  (False, "false"), (True, "true"), (Empty, ""), (After, "after"),
  (And, "and"), (AndAlso, "andalso"), (Band, "band"), (Begin, "begin"),
  (Bnot, "bnot"), (Bor, "bor"), (Bsl, "bsl"), (Bsr, "bsr"),
  (Bxor, "bxor"), (Case, "case"), (Catch, "catch"), (Div, "div"),
  (End, "end"), (Fun, "fun"), (If, "if"), (Not, "not"),
  (Of, "of"), (Or, "or"), (OrElse, "orelse"), (Receive, "receive"),
  (Rem, "rem"), (Try, "try"), (When, "when"), (Xor, "xor"),
  (Behaviour, "behaviour"), (Callback, "callback"), (Compile, "compile"),
  (Deprecated, "deprecated"), (Export, "export"), (Import, "import"),
  (Module, "module"), (Nifs, "nifs"), (OnLoad, "on_load"), (Spec, "spec"),
  (Vsn, "vsn"), (Define, "define"), (Elif, "elif"), (Else, "else"),
  (Endif, "endif"), (Error, "error"), (File, "file"), (Ifdef, "ifdef"),
  (Ifndef, "ifndef"), (Include, "include"), (IncludeLib, "include_lib"),
  (Line, "line"), (Undef, "undef"), (Warning, "warning"), (Bang, "!"),
  (Star, "*"), (Plus, "+"), (PlusPlus, "++"), (Minus, "-"),
  (MinusMinus, "--"), (Slash, "/"), (NotEqual, "/="), (Lt, "<"),
  (NotEqualStrict, "=/="), (EqualStrict, "=:="), (Lte, "=<"), (Equal, "=="),
  (Gt, ">"), (Gte, ">="), (Underscore, "_"), (BadFilter, "bad_filter"),
  (BadGenerator, "bad_generator"), (BadSize, "bad_size"),
  (BadValue, "bad_value"), (Badarg, "badarg"), (Badmap, "badmap"),
  (Badmatch, "badmatch"), (Badrecord, "badrecord"),
  (CaseClause, "case_clause"), (FunctionClause, "function_clause"),
  (IfClause, "if_clause"), (NifError, "nif_error"),
  (TryClause, "try_clause"), (IsAtom, "is_atom"), (IsBinary, "is_binary"),
  (IsBitstring, "is_bitstring"), (IsBoolean, "is_boolean"),
  (IsFloat, "is_float"), (IsFunction, "is_function"),
  (IsInteger, "is_integer"), (IsList, "is_list"), (IsMap, "is_map"),
  (IsNumber, "is_number"), (IsPid, "is_pid"), (IsPort, "is_port"),
  (IsRecord, "is_record"), (IsReference, "is_reference"),
  (IsTuple, "is_tuple"), (Abs, "abs"), (Apply, "apply"),
  (BinaryPart, "binary_part"), (BitSize, "bit_size"),
  (BuildStacktrace, "build_stacktrace"), (ByteSize, "byte_size"),
  (Ceil, "ceil"), (Element, "element"), (Float, "float"),
  (Floor, "floor"), (Hd, "hd"), (IsMapKey, "is_map_key"),
  (Length, "length"), (MakeFun, "make_fun"), (MapGet, "map_get"),
  (MapSize, "map_size"), (MatchFail, "match_fail"), (Node, "node"),
  (Raise, "raise"), (RecvPeekMessage, "recv_peek_message"),
  (RecvWaitTimeout, "recv_wait_timeout"), (RemoveMessage, "remove_message"),
  (Round, "round"), (SELF, "self"), (Setelement, "setelement"),
  (Size, "size"), (Throw, "throw"), (Tl, "tl"), (Trunc, "trunc"),
  (TupleSize, "tuple_size"), (CompilerGenerated, "compiler_generated"),
  (Id, "id"), (EXIT, "EXIT"), (MODULE, "MODULE"),
  (MODULE_STRING, "MODULE_STRING"), (All, "all"),
  (Attributes, "attributes"), (BehaviourInfo, "behaviour_info"),
  (Bits, "bits"), (BitsCloseWritable, "bits_close_writable"),
  (BitsInitWritable, "bits_init_writable"), (Bitstring, "bitstring"),
  (Bytes, "bytes"), (Erlang, "erlang"), (Exit, "exit"),
  (Exports, "exports"), (Infinity, "infinity"), (Inline, "inline"),
  (Integer, "integer"), (LetrecGoto, "letrec_goto"),
  (ListComprehension, "list_comprehension"), (ModuleInfo, "module_info"),
  (Native, "native"), (New, "new"), (Nif, "nif"),
  (NifStart, "nif_start"), (NoInline, "no_inline"), (Ok, "ok"),
  (Other, "other"), (ReceiveTimeout, "receive_timeout"),
  (RecordInfo, "record_info"), (RecvNext, "recv_next"),
  (RecvPeek, "recv_peek"), (RecvPop, "recv_pop"),
  (RecvStart, "recv_start"), (RecvWait, "recv_wait"), (Send, "send"),
  (SingleUse, "single_use"), (SkipClause, "skip_clause"),
  (Undefined, "undefined"), (Used, "used"), (Utf16, "utf16"),
  (Utf32, "utf32"), (Utf8, "utf8")]

end symbols

/-- Modelled from the spec: `intern(string) → symbol` itself lives in the
interner crate root, which is not part of the provided sources; the spec says
identical strings map to identical IDs and the table above is pre-registered.
For a pre-registered string, interning returns its table entry.  We model the
lookup of a pre-registered string; strings outside the table are interned
fresh in the real system and are not needed by any claim. -/
def intern_registered (s : String) : Option Symbol :=
  (symbols.SYMBOLS.find? (fun p => p.2 == s)).map Prod.fst

/-- Translation of `is_keyword` from `symbols.rs`. -/
def is_keyword (sym : Symbol) : Bool :=
  sym == symbols.After || sym == symbols.And || sym == symbols.AndAlso ||
  sym == symbols.Band || sym == symbols.Begin || sym == symbols.Bnot ||
  sym == symbols.Bor || sym == symbols.Bsl || sym == symbols.Bsr ||
  sym == symbols.Bxor || sym == symbols.Case || sym == symbols.Catch ||
  sym == symbols.Div || sym == symbols.End || sym == symbols.Fun ||
  sym == symbols.If || sym == symbols.Not || sym == symbols.Of ||
  sym == symbols.Or || sym == symbols.OrElse || sym == symbols.Receive ||
  sym == symbols.Rem || sym == symbols.Try || sym == symbols.When ||
  sym == symbols.Xor

/-- Translation of `is_reserved` from `symbols.rs`. -/
def is_reserved (sym : Symbol) : Bool :=
  sym == symbols.Behaviour || sym == symbols.Callback ||
  sym == symbols.Compile || sym == symbols.Deprecated ||
  sym == symbols.Export || sym == symbols.Import ||
  sym == symbols.Module || sym == symbols.Nifs ||
  sym == symbols.OnLoad || sym == symbols.Spec || sym == symbols.Vsn ||
  sym == symbols.Define || sym == symbols.Elif || sym == symbols.Else ||
  sym == symbols.Endif || sym == symbols.Error || sym == symbols.File ||
  sym == symbols.Ifdef || sym == symbols.Ifndef ||
  sym == symbols.Include || sym == symbols.IncludeLib ||
  sym == symbols.Line || sym == symbols.Undef || sym == symbols.Warning

/-- Translation of `is_directive` from `symbols.rs`. -/
def is_directive (sym : Symbol) : Bool :=
  sym == symbols.Define || sym == symbols.Elif || sym == symbols.Else ||
  sym == symbols.Endif || sym == symbols.Error || sym == symbols.File ||
  sym == symbols.Ifdef || sym == symbols.Ifndef ||
  sym == symbols.Include || sym == symbols.IncludeLib ||
  sym == symbols.Line || sym == symbols.Undef || sym == symbols.Warning

end Interner

/-! ## ModuleFunctionArity (`library/rt/src/function/mfa.rs`)

`Atom` is modelled from the spec as its string contents (the `Atom` type is
not among the provided sources; the spec describes an atom as an interned
immutable symbol whose display form is its string).  `from_str` splits on the
first `:` and then the first `/` and parses the arity as a `u8`; the source
omits the `Ok(..)` wrapper required by its declared `Result` return type
(a slip — we translate the evident data flow). -/

namespace Mfa

/-- Rust `str::split_once` on a list of characters: split at the first
occurrence of `c`, returning the text before and after it. -/
def splitOnceList (c : Char) : List Char → Option (List Char × List Char)
  | [] => none
  | x :: xs =>
    if x = c then some ([], xs)
    else (splitOnceList c xs).map (fun p => (x :: p.1, p.2))

/-- Rust `str::split_once` on `String`. -/
def splitOnce (s : String) (c : Char) : Option (String × String) :=
  (splitOnceList c s.toList).map (fun p => (String.mk p.1, String.mk p.2))

/-- Rust `u8::from_str`: an optional leading `+`, then one or more ASCII
digits, value at most 255. -/
def parseU8 (s : String) : Option Nat :=
  let cs := s.toList
  let cs := match cs with
    | '+' :: rest => rest
    | other => other
  if cs.isEmpty then none
  else if cs.all (fun ch => ch.isDigit) then
    let v := cs.foldl (fun acc ch => acc * 10 + (ch.toNat - 48)) 0
    if v < 256 then some v else none
  else none

structure ModuleFunctionArity where
  module : String
  function : String
  arity : Nat
  deriving DecidableEq, Repr

/-- Translation of `ModuleFunctionArity::from_str`. -/
def from_str (s : String) : Option ModuleFunctionArity := do
  let (module, rest) ← splitOnce s ':'
  let (function, arity) ← splitOnce rest '/'
  let arity ← parseU8 arity
  some { module := module, function := function, arity := arity }

/-- Translation of the `Display` implementation:
`write!(f, "\x7b\x7d:\x7b\x7d/\x7b\x7d", self.module, self.function, self.arity)`. -/
def display (mfa : ModuleFunctionArity) : String :=
  mfa.module ++ ":" ++ mfa.function ++ "/" ++ toString mfa.arity

end Mfa

/-! ## Runtime lists (`library/rt/src/term/list.rs`)

Runtime terms are modelled as a small inductive covering the variants the
list code touches.  A cons cell is the pair of its `head` and `tail` slots
(`struct Cons`); the boxed pointer to a cell is the `cons` term constructor.
Allocation always succeeds in the model; `clone_into` is the identity. -/

namespace RtList

inductive RtTerm where
  | nil
  | noneVal
  | int (i : Int)
  | atom (s : String)
  | cons (head tail : RtTerm)
  | tuple (elements : List RtTerm)

/-- A cons cell: the `head` and `tail` slots of `struct Cons`. -/
abbrev ConsCell := RtTerm × RtTerm

/-- Translation of `Iterator for Iter`: starting from the cell `(h, t)`,
produce the sequence of `next()` results.  Each proper element is yielded as
`Except.ok`; after a `Nil` tail the iterator yields one final
`Except.ok .nil` (the branch `Some(Ok(Term::Nil)) if self.tail.is_none()`);
an improper tail is yielded as `Except.error tail`; a `Term::None` tail
panics, modelled as `none`. -/
def iterate : RtTerm → RtTerm → Option (List (Except RtTerm RtTerm))
  | h, .nil => some [Except.ok h, Except.ok .nil]
  | h, .cons h2 t2 => (iterate h2 t2).map (fun rest => Except.ok h :: rest)
  | _, .noneVal => none
  | h, t => some [Except.ok h, Except.error t]

/-- Translation of `Cons::is_proper`: every iteration result is `Ok`.
The iterator panic is propagated as `none`. -/
def is_proper (c : ConsCell) : Option Bool :=
  (iterate c.1 c.2).map (List.all · (fun r => r matches Except.ok _))

/-- The state of `ListBuilder`: the most recently allocated cell, if any. -/
structure ListBuilder where
  head : Option ConsCell

/-- Translation of `ListBuilder::push`: allocate a fresh cell whose head is
the (cloned) value and whose tail is nil for the first push, or the
previously built cell otherwise. -/
def ListBuilder.push (b : ListBuilder) (value : RtTerm) : ListBuilder :=
  match b.head with
  | none => ⟨some (value, RtTerm.nil)⟩
  | some tailCell => ⟨some (value, RtTerm.cons tailCell.1 tailCell.2)⟩

/-- Translation of `ListBuilder::finish`. -/
def ListBuilder.finish (b : ListBuilder) : Option ConsCell :=
  b.head

/-- Translation of `Cons::from_slice`: push the slice in reverse order, then
finish.  (The source's declared return type wraps this in `Result`, but its
body produces the builder's `Option` directly — a slip; we keep the data
flow.) -/
def from_slice (slice : List RtTerm) : Option ConsCell :=
  (slice.reverse.foldl ListBuilder.push ⟨none⟩).finish

/-- Translation of `Cons::charlist_from_str`: push the string's characters
(as integer codepoints) in reverse order, then finish. -/
def charlist_from_str (s : String) : Option ConsCell :=
  (s.toList.reverse.foldl
    (fun (b : ListBuilder) c => b.push (RtTerm.int c.toNat))
    ⟨none⟩).finish

/-! ### Charlists -/

inductive Encoding where
  | utf8
  | latin1
  | raw
  deriving DecidableEq, Repr

/-- Modelled from the spec: `Encoding::is_latin1_byte` lives in the binary
support crate, which is not among the provided sources, and the spec does not
pin it down.  Its value only selects between the `Latin1` and `Raw` encoding
tags and never affects the computed byte length, so any byte predicate yields
the same allocation behaviour; ISO-8859-1 assigns a character to every byte. -/
def Encoding.is_latin1_byte (b : Nat) : Bool :=
  b ≤ 255

/-- Translation of the free function `len_utf8`. -/
def len_utf8 (code : Nat) : Nat :=
  if code < 0x80 then 1
  else if code < 0x800 then 2
  else if code < 0x10000 then 3
  else 4

/-- Rust `char::from_u32`: valid unicode scalar values only. -/
def charFromU32 (n : Nat) : Option Nat :=
  if n < 0xD800 ∨ (0xE000 ≤ n ∧ n ≤ 0x10FFFF) then some n else none

inductive CharlistToBinaryError where
  | invalidList
  | allocError
  deriving DecidableEq, Repr

/-- One step of the fold inside `get_charlist_size_and_encoding`: the match on
a single iterated element, updating `(len, encoding)` or failing. -/
def charlistStep (acc : Nat × Encoding) (element : Except RtTerm RtTerm) :
    Option (Nat × Encoding) :=
  match element with
  | Except.error _ => none
  | Except.ok (RtTerm.int codepoint) =>
    let (len, encoding) := acc
    match encoding with
    | Encoding.utf8 =>
      -- `codepoint.try_into() : u32` fails for values outside 0..2^32
      if 0 ≤ codepoint ∧ codepoint < 4294967296 then
        let cp := codepoint.toNat
        match charFromU32 cp with
        | some _ => some (len + len_utf8 cp, encoding)
        | none =>
          if cp > 255 then none
          else if Encoding.is_latin1_byte cp then some (len + 1, Encoding.latin1)
          else some (len + 1, Encoding.raw)
      else none
    | Encoding.latin1 =>
      if codepoint > 255 then none
      else if ¬ Encoding.is_latin1_byte codepoint.toNat then
        some (len + 1, Encoding.raw)
      else some (len + 1, Encoding.latin1)
    | Encoding.raw =>
      if codepoint > 255 then none else some (len + 1, Encoding.raw)
  | Except.ok _ => none

/-- Translation of `Cons::get_charlist_size_and_encoding`: fold
`charlistStep` over the iterated elements, starting from `(0, Utf8)`. -/
def get_charlist_size_and_encoding (c : ConsCell) : Option (Nat × Encoding) :=
  match iterate c.1 c.2 with
  | none => none
  | some elements =>
    elements.foldlM charlistStep ((0 : Nat), Encoding.utf8)

/-- Which heap a binary was allocated on. -/
inductive Heap where
  | processHeap
  | globalRcHeap
  deriving DecidableEq, Repr

/-- Translation of the allocation decision in `Cons::charlist_to_binary`:
compute `(len, encoding)`, then allocate on the process heap when `len < 64`
(`charlist_to_heap_binary`) and on the global reference-counted heap
otherwise (`charlist_to_refc_binary`).  The result records the chosen heap
together with the length and encoding of the written binary. -/
def charlist_to_binary (c : ConsCell) :
    Except CharlistToBinaryError (Heap × Nat × Encoding) :=
  match get_charlist_size_and_encoding c with
  | none => Except.error CharlistToBinaryError.invalidList
  | some (len, encoding) =>
    if len < 64 then Except.ok (Heap.processHeap, len, encoding)
    else Except.ok (Heap.globalRcHeap, len, encoding)

end RtList

/-! ## Scheduler exit intrinsic (`runtimes/minimal/src/scheduler.rs`)

`process_exit(ErlangResult)` sets the current process status and then yields
to the scheduler.  The helpers `exit_normal`, `erlang_exit` and `set_nocatch`
live in the allocator crate and are modelled from the spec: `exit_normal`
records a normal exit (status `Exited`), `erlang_exit` records the runtime
exception, and `set_nocatch` rewrites the reason to `\x7bnocatch, Reason\x7d`. -/

namespace Sched

open RtList (RtTerm)

/-- An exception value: class (`kind`), reason and trace.  `kind()` in the
source returns the class atom. -/
structure ErtsException where
  kind : String
  reason : RtTerm
  trace : RtTerm

/-- `ErlangResult`: `none` models a null `exception` pointer. -/
abbrev ErlangResult := Option ErtsException

inductive Status where
  | Runnable
  | Running
  | Waiting
  | Exited
  | RuntimeException (e : ErtsException)

/-- Modelled from the spec: `Exception::set_nocatch` updates the reason to
`\x7bnocatch, Reason\x7d`. -/
def set_nocatch (e : ErtsException) : ErtsException :=
  { e with reason := RtTerm.tuple [RtTerm.atom "nocatch", e.reason] }

/-- Translation of `process_exit`: a result with a null exception exits the
process normally; otherwise the exception is recorded after rewriting its
reason when its class is `throw`.  The returned flag records that
`scheduler.process_yield()` runs afterwards in both cases. -/
def process_exit (result : ErlangResult) : Status × Bool :=
  match result with
  | none => (Status.Exited, true)
  | some exception =>
    let exception :=
      if exception.kind == "throw" then set_nocatch exception else exception
    (Status.RuntimeException exception, true)

/-- The finalization action the scheduler takes for an exiting process. -/
inductive FinalizeAction where
  | propagateOnly
  | logAndPropagate (e : ErtsException)

/-- Translation of the exit handling in `scheduler_yield`: when `requeue`
hands back an exiting process, `Exited` propagates the exit and
`RuntimeException` first logs it; other statuses are unreachable there. -/
def finalize_exiting (status : Status) : Option FinalizeAction :=
  match status with
  | Status.Exited => some FinalizeAction.propagateOnly
  | Status.RuntimeException e => some (FinalizeAction.logAndPropagate e)
  | _ => none

end Sched

/-! ## Kernel→SSA lowering
(`compiler/syntax_kernel/src/passes/translate/kernel_to_ssa/mod.rs`)

The lowering pass drives an SSA `IrBuilder`.  Blocks and SSA values are
numbered; the builder state `St` carries the block table, the current block,
the variable environment and the lowering-pass fields of
`LowerFunctionToSsa` (`brk`, `landing_pads`, `fail`, `ultimate_failure`).
The source pushes landing pads and break targets with `Vec::push` and reads
`Vec::last`; we push at the head of a `List` and read `head?`, the same
stack discipline.

Interned symbols appearing as immediates (`symbols::Throw`, `symbols::Exit`,
`symbols::EXIT`) are rendered by their registered strings.  Compile-time
errors reported through the diagnostic `Reporter` (`reporter.show_error`
followed by `Err(..)`) are the `Res.diag` outcome, carrying the source span
passed to the reporter; `panic!`/failed `assert!`/`unwrap` is `Res.panicked`,
which emits no diagnostic. -/

namespace K2S

abbrev Block := Nat
abbrev Value := Nat
abbrev Span := Nat

inductive Lit where
  | atom (s : String)
  | int (i : Int)
  | nil
  deriving DecidableEq, Repr

/-- The value types the modelled slice of the lowering consults:
`Type::Term(TermType::Any)` and friends collapse to `term`;
`Type::Term(TermType::Tuple(None))` is `tupleTy`; `Type::Exception` is
`exception`; the `i1` error flags are `flagTy`. -/
inductive Ty where
  | term
  | tupleTy
  | exception
  | flagTy
  deriving DecidableEq, Repr

/-- The SSA instructions emitted by the modelled lowering paths.  `callFn`
covers `call` to a builtin or native callee (two results: error flag and
value); `retFlag` is the two-argument `ret` used by exception builtins. -/
inductive Inst where
  | constLit (res : Value) (l : Lit)
  | eqExactImm (res : Value) (arg : Value) (l : Lit)
  | brIf (cond : Value) (target : Block) (args : List Value)
  | brUnless (cond : Value) (target : Block) (args : List Value)
  | br (target : Block) (args : List Value)
  | switch (arg : Value) (arms : List (Nat × Block)) (default : Block)
  | callFn (resFlag resVal : Value) (callee : String) (args : List Value)
  | cast (res : Value) (src : Value) (ty : Ty)
  | getElementImm (res : Value) (src : Value) (index : Nat)
  | tupleImm (res : Value) (arity : Nat)
  | setElementMut (res : Value) (target : Value) (index : Nat) (v : Value)
  | setElementMutImm (res : Value) (target : Value) (index : Nat) (l : Lit)
  | exceptionClass (res : Value) (e : Value)
  | exceptionReason (res : Value) (e : Value)
  | exceptionTrace (res : Value) (e : Value)
  | retOk (v : Value)
  | retErr (v : Value)
  | retFlag (flag : Value) (v : Value)
  | enterFn (callee : String) (args : List Value)
  deriving DecidableEq, Repr

/-- Block terminators: once one is inserted the block is terminated.
`br_if`/`br_unless` are conditional branches with fall-through and do not
terminate a block. -/
def Inst.isTerminator : Inst → Bool
  | .br _ _ => true
  | .switch _ _ _ => true
  | .retOk _ => true
  | .retErr _ => true
  | .retFlag _ _ => true
  | .enterFn _ _ => true
  | _ => false

structure BlockData where
  params : List Value
  insts : List Inst
  terminated : Bool
  deriving DecidableEq, Repr

def BlockData.empty : BlockData := ⟨[], [], false⟩

/-- The builder plus `LowerFunctionToSsa` state.  The block arena, the
variable scope and the value-type table are total maps (the arena indexed by
block id, the scope by name with later definitions shadowing earlier ones,
value types defaulting to `Term`); block and value ids are handed out by the
monotone counters, so ids never collide. -/
structure St where
  nextValue : Nat := 0
  nextBlock : Nat := 0
  blocks : Block → Option BlockData := fun _ => none
  cur : Block := 0
  vars : String → Option Value := fun _ => none
  vtypes : Value → Ty := fun _ => Ty.term
  brk : List Block := []
  landingPads : List Block := []
  fail : Block := 0
  ultimate : Block := 0

def lookupBlock (s : St) (b : Block) : Option BlockData :=
  s.blocks b

def lookupBlockInsts (s : St) (b : Block) : Option (List Inst) :=
  (lookupBlock s b).map BlockData.insts

def updateBlock (s : St) (b : Block) (f : BlockData → BlockData) : St :=
  { s with blocks := fun b2 => if b2 = b then (s.blocks b2).map f else s.blocks b2 }

/-- `builder.create_block()`. -/
def create_block (s : St) : Block × St :=
  (s.nextBlock,
   { s with nextBlock := s.nextBlock + 1,
            blocks := fun b2 =>
              if b2 = s.nextBlock then some BlockData.empty else s.blocks b2 })

/-- `builder.switch_to_block(blk)`. -/
def switch_to_block (b : Block) (s : St) : St :=
  { s with cur := b }

/-- `builder.append_block_param(blk, ty, span)`. -/
def append_block_param (b : Block) (ty : Ty) (s : St) : Value × St :=
  let v := s.nextValue
  let s := { s with nextValue := v + 1,
                    vtypes := fun v2 => if v2 = v then ty else s.vtypes v2 }
  (v, updateBlock s b (fun d => { d with params := d.params ++ [v] }))

/-- `builder.define_var(name, value)`. -/
def define_var (name : String) (v : Value) (s : St) : St :=
  { s with vars := fun n => if n = name then some v else s.vars n }

/-- `builder.var(name)`. -/
def lookup_var (s : St) (name : String) : Option Value :=
  s.vars name

/-- `builder.set_value_type(value, ty)`. -/
def set_value_type (v : Value) (ty : Ty) (s : St) : St :=
  { s with vtypes := fun v2 => if v2 = v then ty else s.vtypes v2 }

/-- `builder.value_type(value)`. -/
def value_type (s : St) (v : Value) : Ty :=
  s.vtypes v

/-- Append an instruction to the current block, marking the block terminated
when the instruction is a terminator. -/
def emit (i : Inst) (s : St) : St :=
  updateBlock s s.cur
    (fun d => { d with insts := d.insts ++ [i],
                       terminated := d.terminated || i.isTerminator })

/-- `builder.is_current_block_terminated()`. -/
def is_current_block_terminated (s : St) : Bool :=
  ((lookupBlock s s.cur).map BlockData.terminated).getD false

/-- Emit an instruction with one fresh result value of type `ty`. -/
def emit1 (mk : Value → Inst) (ty : Ty) (s : St) : Value × St :=
  let v := s.nextValue
  let s := { s with nextValue := v + 1,
                    vtypes := fun v2 => if v2 = v then ty else s.vtypes v2 }
  (v, emit (mk v) s)

/-- Emit a `call` with the Erlang calling convention: two fresh results
(error flag, value), as read back through `inst_results`. -/
def emit_call (callee : String) (args : List Value) (s : St) :
    (Value × Value) × St :=
  let flag := s.nextValue
  let v := s.nextValue + 1
  let s := { s with nextValue := s.nextValue + 2,
                    vtypes := fun v2 =>
                      if v2 = v then Ty.term
                      else if v2 = flag then Ty.flagTy else s.vtypes v2 }
  ((flag, v), emit (.callFn flag v callee args) s)

/-! ### Fail context -/

/-- Translation of the `FailContext` enum. -/
inductive FailContext where
  | Uncaught (b : Block)
  | Catch (b : Block)
  | Guard (b : Block)
  deriving DecidableEq, Repr

/-- `FailContext::block`. -/
def FailContext.block : FailContext → Block
  | .Uncaught b => b
  | .Catch b => b
  | .Guard b => b

/-- Translation of `LowerFunctionToSsa::fail_context`. -/
def fail_context (s : St) : FailContext :=
  if s.fail ≠ s.ultimate then FailContext.Guard s.fail
  else
    match s.landingPads.head? with
    | none => FailContext.Uncaught s.fail
    | some catchBlk => FailContext.Catch catchBlk

/-! ### Kernel IR fragment

The fragment of Kernel IR sufficient for the claims under verification.
Value positions (`ssa_value`) only ever accept `Var` and `Literal`
expressions in the source (every other expression kind panics there), so
argument positions carry `KAtom`.  Static local/remote callees are carried
as their name; the other callee forms of `lower_call`/`lower_enter` are not
exercised by any claim.  `Return` carries exactly one argument
(`assert_eq!(args.len(), 1)` in the source) and `Catch` exactly one return
variable (`assert_eq!(expr.ret.len(), 1)`). -/

inductive KAtom where
  | var (span : Span) (name : String)
  | lit (span : Span) (l : Lit)
  deriving DecidableEq, Repr

/-- A tuple-pattern element of a Select value clause: a variable, possibly
annotated `symbols::Unused`. -/
structure TupleElem where
  span : Span
  name : String
  unused : Bool
  deriving DecidableEq, Repr

inductive KExpr where
  | seq (arg body : KExpr)
  | ret1 (span : Span) (arg : KAtom)
  | brk1 (span : Span) (args : List KAtom)
  | call (span : Span) (callee : String) (args : List KAtom)
      (retVar : Option String)
  | enter (span : Span) (callee : String) (args : List KAtom)
  | catchExpr (span : Span) (body : KExpr) (retVar : String)
  | bifRaise (span : Span) (op : String) (args : List KAtom)
      (retVar : Option String)
  deriving DecidableEq, Repr

/-- A value clause of a tuple-typed Select: the `KExpr::Tuple` pattern (its
element variables) together with the clause body.  The source extracts the
arity by matching `vclause.value` against `KExpr::Tuple` and panics on
anything else; the tuple shape is carried directly here. -/
structure ValueClause where
  span : Span
  elements : List TupleElem
  body : KExpr
  deriving DecidableEq, Repr

/-- The lowering outcome: `ok` with the updated builder, a reporter
diagnostic (always accompanied by `Err(..)` in the source, aborting the
module), or a panic. -/
inductive Res (α : Type) where
  | ok (a : α) (s : St)
  | diag (span : Span) (msg : String)
  | panicked (msg : String)

/-- Translation of `LowerFunctionToSsa::ssa_value`: a defined variable
resolves to its SSA value; an undefined variable reports a diagnostic at the
variable's span and errors; a literal is lowered to a constant
(`lower_literal`). -/
def ssa_value (s : St) (a : KAtom) : Res Value :=
  match a with
  | .var sp name =>
    match lookup_var s name with
    | some v => .ok v s
    | none => .diag sp "use of undefined variable"
  | .lit _ l =>
    let (v, s) := emit1 (fun r => Inst.constLit r l) Ty.term s
    .ok v s

/-- Translation of `ssa_values`. -/
def ssa_values (s : St) (args : List KAtom) : Res (List Value) :=
  match args with
  | [] => .ok [] s
  | a :: rest =>
    match ssa_value s a with
    | .ok v s =>
      match ssa_values s rest with
      | .ok vs s => .ok (v :: vs) s
      | .diag sp m => .diag sp m
      | .panicked m => .panicked m
    | .diag sp m => .diag sp m
    | .panicked m => .panicked m

/-! ### Expression lowering -/

/-- The block-construction phase of `lower_catch` (everything before the
body is lowered): build the handler, result and exit blocks, emit the
class demultiplexing into the handler and the `\x7b'EXIT', …\x7d` wrapping
into the exit block, switch back to the starting block and push the result
block as break target and the handler as landing pad.  Returns the updated
state together with the result block. -/
def catch_setup (s : St) (retVar : String) : St × Block :=
  let current_block := s.cur
  let (handler_block, s) := create_block s
  let (exception, s) := append_block_param handler_block Ty.exception s
  let (result_block, s) := create_block s
  let (result, s) := append_block_param result_block Ty.term s
  let s := define_var retVar result s
  let (exit_block, s) := create_block s
  let (exit_reason, s) := append_block_param exit_block Ty.term s
  let s := switch_to_block handler_block s
  let (cls, s) := emit1 (fun r => Inst.exceptionClass r exception) Ty.term s
  let (reason, s) := emit1 (fun r => Inst.exceptionReason r exception) Ty.term s
  let (is_throw, s) :=
    emit1 (fun r => Inst.eqExactImm r cls (Lit.atom "throw")) Ty.flagTy s
  let s := emit (.brIf is_throw result_block [reason]) s
  let (is_exit, s) :=
    emit1 (fun r => Inst.eqExactImm r cls (Lit.atom "exit")) Ty.flagTy s
  let s := emit (.brIf is_exit exit_block [reason]) s
  let (trace, s) := emit1 (fun r => Inst.exceptionTrace r exception) Ty.term s
  let (er0, s) := emit1 (fun r => Inst.tupleImm r 2) Ty.term s
  let (er1, s) := emit1 (fun r => Inst.setElementMut r er0 0 reason) Ty.term s
  let (er2, s) := emit1 (fun r => Inst.setElementMut r er1 1 trace) Ty.term s
  let s := emit (.br exit_block [er2]) s
  let s := switch_to_block exit_block s
  let (w0, s) := emit1 (fun r => Inst.tupleImm r 2) Ty.term s
  let (w1, s) :=
    emit1 (fun r => Inst.setElementMutImm r w0 0 (Lit.atom "EXIT")) Ty.term s
  let (w2, s) := emit1 (fun r => Inst.setElementMut r w1 1 exit_reason) Ty.term s
  let s := emit (.br result_block [w2]) s
  let s := switch_to_block current_block s
  let s := { s with brk := result_block :: s.brk,
                    landingPads := handler_block :: s.landingPads }
  (s, result_block)

/-- Translation of `LowerFunctionToSsa::lower_catch` (split into
`catch_setup` and this driver): after the setup, lower the body with the
result block as break target and the handler as landing pad, pop both, and
continue in the result block.  The body lowering is the `lowerBody`
continuation so this definition can be shared by `lower` below. -/
def lower_catch_with (lowerBody : St → Res Unit) (s : St) (_sp : Span)
    (retVar : String) : Res Unit :=
  let (s, result_block) := catch_setup s retVar
  match lowerBody s with
  | .ok _ s =>
    let s := { s with brk := s.brk.tail, landingPads := s.landingPads.tail }
    .ok () (switch_to_block result_block s)
  | .diag sp2 m => .diag sp2 m
  | .panicked m => .panicked m

/-- Translation of `LowerFunctionToSsa::lower` restricted to the embedded
fragment: `Seq`, `Return`, `Break`, `Call` (static callee), `Enter` (static
callee), `Catch`, and exception-class `Bif`s (`lower_internal`'s
`is_exception_op` arm).  `Match`/`If`/`LetRecGoto`/`Goto` and the remaining
callee forms are not exercised by the claims. -/
def lower (s : St) : KExpr → Res Unit
  | .seq a b =>
    match lower s a with
    | .ok _ s => lower s b
    | .diag sp m => .diag sp m
    | .panicked m => .panicked m
  | .ret1 sp arg =>
    match ssa_value s arg with
    | .ok v s =>
      if is_current_block_terminated s then
        -- a return after a terminator is dropped only for exception values
        match value_type s v with
        | Ty.exception => .ok () s
        | _ => .diag sp "skipped generating return as block is already terminated"
      else .ok () (emit (.retOk v) s)
    | .diag sp2 m => .diag sp2 m
    | .panicked m => .panicked m
  | .brk1 sp args =>
    match ssa_values s args with
    | .ok vs s =>
      if is_current_block_terminated s then
        match vs with
        | [v] =>
          match value_type s v with
          | Ty.exception => .ok () s
          | _ => .diag sp "skipped generating break as block is already terminated"
        | _ => .panicked "assertion failed: args.len() == 1"
      else
        match s.brk.head? with
        | some brkTarget => .ok () (emit (.br brkTarget vs) s)
        | none => .panicked "break target is missing"
    | .diag sp2 m => .diag sp2 m
    | .panicked m => .panicked m
  | .call _sp callee args retVar =>
    -- `lower_call`: calls are forbidden inside a guard
    match fail_context s with
    | FailContext.Guard _ => .panicked "invalid callee in guard"
    | fc =>
      match ssa_values s args with
      | .ok vs s =>
        let ((is_err, result), s) := emit_call callee vs s
        let s := match retVar with
          | some r => define_var r result s
          | none => s
        .ok () (emit (.brIf is_err fc.block [result]) s)
      | .diag sp2 m => .diag sp2 m
      | .panicked m => .panicked m
  | .enter _sp callee args =>
    -- `lower_enter`: asserts the fail context is `Uncaught`
    match fail_context s with
    | FailContext.Uncaught _ =>
      match ssa_values s args with
      | .ok vs s => .ok () (emit (.enterFn callee vs) s)
      | .diag sp2 m => .diag sp2 m
      | .panicked m => .panicked m
    | _ => .panicked "assertion failed: fail context matches Uncaught"
  | .catchExpr sp body retVar =>
    lower_catch_with (fun s => lower s body) s sp retVar
  | .bifRaise _sp op args retVar =>
    -- `lower_internal`, exception-op arm
    match ssa_values s args with
    | .ok vs s =>
      let ((is_err, exception), s) := emit_call op vs s
      let s := match retVar with
        | some r => set_value_type exception Ty.exception (define_var r exception s)
        | none => s
      match fail_context s with
      | FailContext.Uncaught _ => .ok () (emit (.retFlag is_err exception) s)
      | FailContext.Catch blk => .ok () (emit (.br blk [exception]) s)
      | FailContext.Guard _ => .panicked "invalid op in guard"
    | .diag sp2 m => .diag sp2 m
    | .panicked m => .panicked m

/-- Translation of `lower_catch` proper (dispatched from `lower`). -/
def lower_catch (s : St) (sp : Span) (body : KExpr) (retVar : String) :
    Res Unit :=
  lower_catch_with (fun s => lower s body) s sp retVar

/-- Translation of `lower_match` restricted to the fragment: the `Alt`,
`Select` and `Guard` dispatch nodes are not part of the fragment, so every
body takes the final arm, `body => self.lower(builder, body)`.  Tuple-typed
Selects are modelled directly by `lower_select_tuple` below. -/
def lower_match (s : St) (_fail : Block) (body : KExpr) : Res Unit :=
  lower s body

/-! ### Tuple Select lowering -/

/-- Stable insertion used by `sort_by_key` (Rust's stable sort): an element
is inserted after all existing elements with a key not exceeding its own. -/
def insert_sorted (x : Nat × ValueClause) :
    List (Nat × ValueClause) → List (Nat × ValueClause)
  | [] => [x]
  | y :: ys => if x.1 < y.1 then x :: y :: ys else y :: insert_sorted x ys

/-- `clauses.sort_by_key(|(arity, _)| *arity)` — a stable sort by arity. -/
def sort_by_key (l : List (Nat × ValueClause)) : List (Nat × ValueClause) :=
  l.foldl (fun acc x => insert_sorted x acc) []

/-- The duplicate-arity scan of `lower_select` (`MatchType::Tuple` arm): walk
the sorted clauses keeping the previous arity, panicking when two adjacent
clauses share an arity. -/
def adjacent_dup : List Nat → Bool
  | [] => false
  | [_] => false
  | a :: b :: rest => a == b || adjacent_dup (b :: rest)

/-- Create one block per clause (`clauses.iter().map(|_| create_block())`). -/
def create_blocks : Nat → St → List Block × St
  | 0, s => ([], s)
  | n + 1, s =>
    let (b, s) := create_block s
    let (bs, s) := create_blocks n s
    (b :: bs, s)

/-- Bind the tuple elements of a clause in its block: skip elements annotated
`Unused`, otherwise `get_element_imm` and `define_var`. -/
def bind_elements (s : St) (src : Value) (i : Nat) :
    List TupleElem → St
  | [] => s
  | e :: rest =>
    if e.unused then bind_elements s src (i + 1) rest
    else
      let (v, s) := emit1 (fun r => Inst.getElementImm r src i) Ty.term s
      bind_elements (define_var e.name v s) src (i + 1) rest

/-- Specification of the instructions `bind_elements` appends: one
`get_element_imm` per non-`Unused` element, result values numbered from
`v0`, element indices from `i`. -/
def elem_binds (src : Value) : Nat → Nat → List TupleElem → List Inst
  | _, _, [] => []
  | v0, i, e :: rest =>
    if e.unused then elem_binds src v0 (i + 1) rest
    else Inst.getElementImm v0 src i :: elem_binds src (v0 + 1) (i + 1) rest

/-- The per-clause loop at the end of the `MatchType::Tuple` arm: switch to
the clause's block, bind the tuple elements, and lower the clause body with
`value_fail` as its fail continuation. -/
def lower_arms (s : St) (src : Value) (value_fail : Block) :
    List ((Nat × ValueClause) × Block) → Res Unit
  | [] => .ok () s
  | ((_, vc), blk) :: rest =>
    let s := switch_to_block blk s
    let s := bind_elements s src 0 vc.elements
    match lower_match s value_fail vc.body with
    | .ok _ s => lower_arms s src value_fail rest
    | .diag sp m => .diag sp m
    | .panicked m => .panicked m

/-- Translation of the `MatchType::Tuple` arm of
`LowerFunctionToSsa::lower_select`: pair every value clause with its tuple
arity, sort by arity, panic on duplicate arities, create one block per
clause, call the native `tuple_size` on the scrutinee, branch to `type_fail`
on error, cast the scrutinee to tuple, dispatch on the arity with a `switch`
defaulting to `value_fail`, then lower each clause in its block. -/
def lower_select_tuple (s : St) (varName : String)
    (values : List ValueClause) (type_fail value_fail : Block) : Res Unit :=
  let clauses := values.map (fun vc => (vc.elements.length, vc))
  let clauses := sort_by_key clauses
  if adjacent_dup (clauses.map Prod.fst) then
    .panicked "found duplicate select clause for arity"
  else
    let (blocks, s) := create_blocks clauses.length s
    match lookup_var s varName with
    | none => .panicked "called Option::unwrap on a None value"
    | some src =>
      let ((is_err, arity), s) := emit_call "tuple_size" [src] s
      let s := emit (.brIf is_err type_fail []) s
      let (src2, s) := emit1 (fun r => Inst.cast r src Ty.tupleTy) Ty.tupleTy s
      let arms := (clauses.map Prod.fst).zip blocks
      let s := emit (.switch arity arms value_fail) s
      lower_arms s src2 value_fail (clauses.zip blocks)

/-! ### Function-pass entry state

`LowerFunctionToSsa::run` for a zero-parameter function: the entry block,
then the ultimate-failure block with one `Term` parameter and a `ret_err`
terminator; `fail` and `ultimate_failure` both point at it, and lowering
resumes in the entry block. -/

def function_entry_state : St :=
  let s : St := {}
  let (entry, s) := create_block s
  let s := switch_to_block entry s
  let (ultimate_failure, s) := create_block s
  let s := { s with ultimate := ultimate_failure, fail := ultimate_failure }
  let (exception, s) := append_block_param ultimate_failure Ty.term s
  let s := switch_to_block ultimate_failure s
  let s := emit (.retErr exception) s
  switch_to_block entry s

/-! ### Verification-support definitions -/

/-- The key ordering used by `sort_by_key`. -/
def keyLe (a b : Nat × ValueClause) : Prop := a.1 ≤ b.1

/-- A lowering step that only touches the current block: the block counter
and current block are unchanged and every other block keeps its data. -/
structure OnlyCur (s s2 : St) : Prop where
  nextBlock_eq : s2.nextBlock = s.nextBlock
  cur_eq : s2.cur = s.cur
  blocks_eq : ∀ b, b ≠ s.cur → s2.blocks b = s.blocks b

/-- The footprint of a lowering step: the block counter is monotone, every
pre-existing block other than the block that was current on entry keeps its
data, and control ends either where it started or in a freshly created
block. -/
structure Ext (s s2 : St) : Prop where
  nextBlock_le : s.nextBlock ≤ s2.nextBlock
  blocks_eq : ∀ b, b ≠ s.cur → b < s.nextBlock → s2.blocks b = s.blocks b
  cur_ok : s2.cur = s.cur ∨ s.nextBlock ≤ s2.cur

/-! ### Evaluation of generated SSA

A small executable semantics for the instruction subset that the catch
handler emits, used to check the run-time behaviour of lowered code.  Terms
are constants, tuples and exception values; `tuple_imm` creates a tuple of
uninitialized (`noneV`) slots and `set_element_mut` yields the updated
tuple as its result (the lowered catch handler threads each result, so the
functional update coincides with the in-place one). -/

inductive CTerm where
  | atom (s : String)
  | int (i : Int)
  | nilV
  | noneV
  | flag (b : Bool)
  | tup (elements : List CTerm)
  | exc (cls reason trace : CTerm)

/-- Evaluate a constant literal. -/
def evalLit : Lit → CTerm
  | .atom s => .atom s
  | .int i => .int i
  | .nil => .nilV

/-- `eq_exact_imm` against an immediate literal. -/
def litEq (t : CTerm) (l : Lit) : Bool :=
  match t, l with
  | .atom s, .atom s2 => s == s2
  | .int i, .int j => i == j
  | .nilV, .nil => true
  | _, _ => false

abbrev Env := List (Value × CTerm)

def lookupEnv (env : Env) (v : Value) : Option CTerm :=
  (env.find? (fun p => p.1 == v)).map Prod.snd

def evalArgs (env : Env) : List Value → Option (List CTerm)
  | [] => some []
  | v :: rest => do
    let t ← lookupEnv env v
    let ts ← evalArgs env rest
    some (t :: ts)

/-- Where evaluation stopped. -/
inductive EvalResult where
  | inBlock (b : Block) (args : List CTerm)
  | finishedOk (v : CTerm)
  | finishedErr (v : CTerm)
  | finishedFlag (f : CTerm) (v : CTerm)
  | entered (callee : String) (args : List CTerm)

/-- Execute the instructions of a block in order; `jump` transfers control
to another block (with one unit of fuel consumed). -/
def evalInsts (jump : Block → List CTerm → Option EvalResult) :
    Env → List Inst → Option EvalResult
  | _, [] => none
  | env, inst :: rest =>
    match inst with
    | .constLit res l => evalInsts jump ((res, evalLit l) :: env) rest
    | .eqExactImm res a l =>
      match lookupEnv env a with
      | some t => evalInsts jump ((res, .flag (litEq t l)) :: env) rest
      | none => none
    | .brIf cond target args =>
      match lookupEnv env cond with
      | some (.flag true) =>
        match evalArgs env args with
        | some ts => jump target ts
        | none => none
      | some (.flag false) => evalInsts jump env rest
      | _ => none
    | .brUnless cond target args =>
      match lookupEnv env cond with
      | some (.flag false) =>
        match evalArgs env args with
        | some ts => jump target ts
        | none => none
      | some (.flag true) => evalInsts jump env rest
      | _ => none
    | .br target args =>
      match evalArgs env args with
      | some ts => jump target ts
      | none => none
    | .tupleImm res n =>
      evalInsts jump ((res, .tup (List.replicate n .noneV)) :: env) rest
    | .setElementMut res target index v =>
      match lookupEnv env target, lookupEnv env v with
      | some (.tup l), some tv =>
        evalInsts jump ((res, .tup (l.set index tv)) :: env) rest
      | _, _ => none
    | .setElementMutImm res target index l =>
      match lookupEnv env target with
      | some (.tup el) =>
        evalInsts jump ((res, .tup (el.set index (evalLit l))) :: env) rest
      | _ => none
    | .exceptionClass res e =>
      match lookupEnv env e with
      | some (.exc c _ _) => evalInsts jump ((res, c) :: env) rest
      | _ => none
    | .exceptionReason res e =>
      match lookupEnv env e with
      | some (.exc _ r _) => evalInsts jump ((res, r) :: env) rest
      | _ => none
    | .exceptionTrace res e =>
      match lookupEnv env e with
      | some (.exc _ _ t) => evalInsts jump ((res, t) :: env) rest
      | _ => none
    | .retOk v => (lookupEnv env v).map EvalResult.finishedOk
    | .retErr v => (lookupEnv env v).map EvalResult.finishedErr
    | .retFlag f v =>
      match lookupEnv env f, lookupEnv env v with
      | some fv, some vv => some (.finishedFlag fv vv)
      | _, _ => none
    | .enterFn callee args => (evalArgs env args).map (EvalResult.entered callee)
    | .switch _ _ _ => none
    | .callFn _ _ _ _ => none
    | .cast _ _ _ => none
    | .getElementImm _ _ _ => none

/-- Jump to block `b` with arguments `args`: bind the block parameters and
run the block body.  A block with no instructions reports `inBlock` — the
lowering under test leaves the join block empty, so reaching it with given
arguments is the observable outcome.  Fuel bounds the number of jumps. -/
def evalBlock (s : St) : Nat → Block → List CTerm → Option EvalResult
  | 0, _, _ => none
  | fuel + 1, b, args =>
    match lookupBlock s b with
    | none => none
    | some data =>
      if data.insts.isEmpty then some (.inBlock b args)
      else evalInsts (fun b2 ts => evalBlock s fuel b2 ts)
        (data.params.zip args) data.insts

/-! ### The lowered `catch` under test (claim C1)

A `catch` expression in a function body: lowered from the canonical
function-entry state, with a trivial normal-path body (`Break` of a
literal).  Block numbering: 0 = entry, 1 = ultimate failure, 2 = handler,
3 = result, 4 = exit. -/

def catch_example : KExpr :=
  KExpr.catchExpr 0 (KExpr.brk1 0 [KAtom.lit 0 (Lit.atom "ok")]) "Ret"

def catch_lowering : Res Unit :=
  lower function_entry_state catch_example

def catch_state : St :=
  match catch_lowering with
  | .ok _ s => s
  | _ => {}

/-! ### A lowered tuple `Select` under test (claim C4)

Two value clauses of arities 2 and 1 over a scrutinee variable `X` bound to
value 0, lowered from the canonical function-entry state (`type_fail` and
`value_fail` both the ultimate-failure block). -/

def select_example : List ValueClause :=
  [⟨0, [⟨0, "A", false⟩, ⟨0, "B", true⟩], KExpr.ret1 0 (KAtom.var 0 "A")⟩,
   ⟨0, [⟨0, "C", false⟩], KExpr.ret1 0 (KAtom.var 0 "C")⟩]

def select_entry : St := define_var "X" 0 function_entry_state

def select_lowering : Res Unit :=
  lower_select_tuple select_entry "X" select_example 1 1

def select_state : St :=
  match select_lowering with
  | .ok _ s => s
  | _ => {}

end K2S

/-! # Theorems -/

/-- C8: the interner predicates classify the pre-registered symbols as the
bootstrapping table demands: `is_keyword` holds for the symbol of `"case"`,
`is_directive` for the symbol of `"include"`, `is_reserved` for the symbol
of `"module"`, and `is_keyword` does not hold for the symbol of `"ok"`. -/
theorem interner_bootstrap_predicates :
    Interner.intern_registered "case" = some Interner.symbols.Case ∧
    Interner.is_keyword Interner.symbols.Case = true ∧
    Interner.intern_registered "include" = some Interner.symbols.Include ∧
    Interner.is_directive Interner.symbols.Include = true ∧
    Interner.intern_registered "module" = some Interner.symbols.Module ∧
    Interner.is_reserved Interner.symbols.Module = true ∧
    Interner.intern_registered "ok" = some Interner.symbols.Ok ∧
    Interner.is_keyword Interner.symbols.Ok = false := by
  refine ⟨?_, ?_, ?_, ?_, ?_, ?_, ?_, ?_⟩ <;> rfl

/-- C2: the fail context computed from the lowering state is `Guard(fail)`
whenever `fail ≠ ultimate_failure`; otherwise `Catch` of the top of
`landing_pads` when it is non-empty (the stack grows at the list head here,
matching `Vec::push`/`Vec::last`); otherwise `Uncaught(ultimate_failure)`. -/
theorem fail_context_computation (s : K2S.St) :
    (s.fail ≠ s.ultimate → K2S.fail_context s = K2S.FailContext.Guard s.fail) ∧
    (s.fail = s.ultimate → ∀ c rest, s.landingPads = c :: rest →
      K2S.fail_context s = K2S.FailContext.Catch c) ∧
    (s.fail = s.ultimate → s.landingPads = [] →
      K2S.fail_context s = K2S.FailContext.Uncaught s.ultimate) := by
  refine ⟨fun h => ?_, fun h c rest hl => ?_, fun h hl => ?_⟩
  · simp [K2S.fail_context, h]
  · simp [K2S.fail_context, h, hl]
  · simp [K2S.fail_context, h, hl]

/-- Witness for `fail_context_computation` at concrete states: a guard
state, a catch state and an uncaught state. -/
theorem fail_context_computation_witness :
    K2S.fail_context { fail := 2, ultimate := 1 } =
      K2S.FailContext.Guard 2 ∧
    K2S.fail_context { fail := 1, ultimate := 1, landingPads := [7, 9] } =
      K2S.FailContext.Catch 7 ∧
    K2S.fail_context { fail := 1, ultimate := 1 } =
      K2S.FailContext.Uncaught 1 :=
  ⟨(fail_context_computation { fail := 2, ultimate := 1 }).1 (by decide),
   (fail_context_computation
      { fail := 1, ultimate := 1, landingPads := [7, 9] }).2.1 rfl 7 [9] rfl,
   (fail_context_computation { fail := 1, ultimate := 1 }).2.2 rfl rfl⟩

/-- C5: `process_exit(result)` exits the process normally when the result
carries no exception; otherwise it records the exception on the process,
rewriting the reason to `\x7bnocatch, reason\x7d` exactly when the class is
`throw`; in both cases it then yields (second component `true`), and the
scheduler's exit handling finalizes the resulting status (propagating the
exit, with a log step for runtime exceptions). -/
theorem process_exit_classification :
    (Sched.process_exit none = (Sched.Status.Exited, true)) ∧
    (∀ e : Sched.ErtsException, e.kind = "throw" →
      Sched.process_exit (some e) =
        (Sched.Status.RuntimeException
          { e with
            reason :=
              RtList.RtTerm.tuple [RtList.RtTerm.atom "nocatch", e.reason] },
         true)) ∧
    (∀ e : Sched.ErtsException, e.kind ≠ "throw" →
      Sched.process_exit (some e) =
        (Sched.Status.RuntimeException e, true)) ∧
    (Sched.finalize_exiting Sched.Status.Exited =
      some Sched.FinalizeAction.propagateOnly) ∧
    (∀ e, Sched.finalize_exiting (Sched.Status.RuntimeException e) =
      some (Sched.FinalizeAction.logAndPropagate e)) := by
  refine ⟨rfl, fun e h => ?_, fun e h => ?_, rfl, fun e => rfl⟩
  · simp [Sched.process_exit, Sched.set_nocatch, h]
  · simp [Sched.process_exit, h]

/-- Witness for `process_exit_classification`: a thrown exception gets the
`\x7bnocatch, …\x7d` wrapper, an error does not. -/
theorem process_exit_classification_witness :
    Sched.process_exit
        (some ⟨"throw", RtList.RtTerm.atom "foo", RtList.RtTerm.nil⟩) =
      (Sched.Status.RuntimeException
        ⟨"throw",
         RtList.RtTerm.tuple
           [RtList.RtTerm.atom "nocatch", RtList.RtTerm.atom "foo"],
         RtList.RtTerm.nil⟩, true) ∧
    Sched.process_exit
        (some ⟨"error", RtList.RtTerm.atom "baz", RtList.RtTerm.nil⟩) =
      (Sched.Status.RuntimeException
        ⟨"error", RtList.RtTerm.atom "baz", RtList.RtTerm.nil⟩, true) :=
  ⟨process_exit_classification.2.1
      ⟨"throw", RtList.RtTerm.atom "foo", RtList.RtTerm.nil⟩ rfl,
   process_exit_classification.2.2.1
      ⟨"error", RtList.RtTerm.atom "baz", RtList.RtTerm.nil⟩ (by decide)⟩

/-- C1: the lowered `catch` demultiplexes a raised exception by class into
the single result block (block 3 of `catch_state`; the handler is block 2):
a `throw` reaches the result block with its reason unchanged, an `exit`
reaches it with the reason wrapped as `\x7b'EXIT', reason\x7d`, and an
`error` reaches it wrapped as `\x7b'EXIT', \x7breason, trace\x7d\x7d` — in
particular `catch exit(bar)` yields `\x7b'EXIT', bar\x7d` and
`catch error(baz)` yields `\x7b'EXIT', \x7bbaz, Trace\x7d\x7d`. -/
theorem catch_class_demultiplexing :
    K2S.catch_lowering = K2S.Res.ok () K2S.catch_state ∧
    (∀ reason trace,
      K2S.evalBlock K2S.catch_state 10 2
          [K2S.CTerm.exc (K2S.CTerm.atom "throw") reason trace] =
        some (K2S.EvalResult.inBlock 3 [reason])) ∧
    (∀ reason trace,
      K2S.evalBlock K2S.catch_state 10 2
          [K2S.CTerm.exc (K2S.CTerm.atom "exit") reason trace] =
        some (K2S.EvalResult.inBlock 3
          [K2S.CTerm.tup [K2S.CTerm.atom "EXIT", reason]])) ∧
    (∀ reason trace,
      K2S.evalBlock K2S.catch_state 10 2
          [K2S.CTerm.exc (K2S.CTerm.atom "error") reason trace] =
        some (K2S.EvalResult.inBlock 3
          [K2S.CTerm.tup [K2S.CTerm.atom "EXIT",
                          K2S.CTerm.tup [reason, trace]]])) :=
  ⟨rfl, fun _ _ => rfl, fun _ _ => rfl, fun _ _ => rfl⟩

/-- C6: `lower_enter` asserts that the fail context is `Uncaught`.  Outside
try/catch and guard scopes (`fail = ultimate_failure`, empty
`landing_pads`) the assertion never fires and lowering emits the tail call;
under a `Catch` or `Guard` fail context, lowering an `Enter` cannot
complete normally — it panics at the assertion. -/
theorem enter_requires_uncaught_context :
    (∀ (s : K2S.St) sp callee args vs s2,
      s.fail = s.ultimate → s.landingPads = [] →
      K2S.ssa_values s args = K2S.Res.ok vs s2 →
      K2S.lower s (K2S.KExpr.enter sp callee args) =
        K2S.Res.ok () (K2S.emit (K2S.Inst.enterFn callee vs) s2)) ∧
    (∀ (s : K2S.St) sp callee args c,
      K2S.fail_context s = K2S.FailContext.Catch c →
      K2S.lower s (K2S.KExpr.enter sp callee args) =
        K2S.Res.panicked "assertion failed: fail context matches Uncaught") ∧
    (∀ (s : K2S.St) sp callee args g,
      K2S.fail_context s = K2S.FailContext.Guard g →
      K2S.lower s (K2S.KExpr.enter sp callee args) =
        K2S.Res.panicked "assertion failed: fail context matches Uncaught") := by
  refine ⟨fun s sp callee args vs s2 hf hl hv => ?_,
          fun s sp callee args c hc => ?_,
          fun s sp callee args g hg => ?_⟩
  · have hctx : K2S.fail_context s = K2S.FailContext.Uncaught s.ultimate :=
      (fail_context_computation s).2.2 hf hl
    simp [K2S.lower, hctx, hv]
  · simp [K2S.lower, hc]
  · simp [K2S.lower, hg]

/-- Witness for `enter_requires_uncaught_context`: a tail call lowered from
the canonical entry state emits `enter`, and the same tail call under a
catch landing pad or a guard fail block panics. -/
theorem enter_requires_uncaught_context_witness :
    K2S.lower K2S.function_entry_state (K2S.KExpr.enter 0 "f" []) =
      K2S.Res.ok ()
        (K2S.emit (K2S.Inst.enterFn "f" []) K2S.function_entry_state) ∧
    K2S.lower { fail := 1, ultimate := 1, landingPads := [4] }
        (K2S.KExpr.enter 0 "f" []) =
      K2S.Res.panicked "assertion failed: fail context matches Uncaught" ∧
    K2S.lower { fail := 2, ultimate := 1 } (K2S.KExpr.enter 0 "f" []) =
      K2S.Res.panicked "assertion failed: fail context matches Uncaught" :=
  ⟨enter_requires_uncaught_context.1 K2S.function_entry_state 0 "f" [] []
      K2S.function_entry_state rfl rfl rfl,
   enter_requires_uncaught_context.2.1
      { fail := 1, ultimate := 1, landingPads := [4] } 0 "f" [] 4 rfl,
   enter_requires_uncaught_context.2.2
      { fail := 2, ultimate := 1 } 0 "f" [] 2 rfl⟩

namespace RtList

theorem foldl_push_head : ∀ xs : List RtTerm,
    ((xs.reverse.foldl ListBuilder.push ⟨none⟩) : ListBuilder).head =
      (match xs with
       | [] => none
       | y :: ys => some (y, ys.foldr RtTerm.cons RtTerm.nil)) := by
  intro xs
  induction xs with
  | nil => rfl
  | cons y ys ih =>
    rw [show (y :: ys).reverse = ys.reverse ++ [y] from by simp, List.foldl_append]
    rcases ys with _ | ⟨z, zs⟩
    · rfl
    · simp only [List.foldl_cons, List.foldl_nil] at ih ⊢
      simp only [ListBuilder.push]
      rw [ih]
      rfl

theorem iterate_foldr : ∀ (xs : List RtTerm) (x : RtTerm),
    iterate x (xs.foldr RtTerm.cons RtTerm.nil) =
      some ((x :: xs).map Except.ok ++ [Except.ok RtTerm.nil]) := by
  intro xs
  induction xs with
  | nil => intro x; rfl
  | cons y ys ih =>
    intro x
    simp only [List.foldr_cons, iterate, ih y, Option.map_some]
    simp

theorem foldlM_charlist_none :
    ∀ (l : List (Except RtTerm RtTerm)) (h t : RtTerm),
      iterate h t = some l →
      ∀ acc, List.foldlM charlistStep acc l = none := by
  intro l
  induction l with
  | nil =>
    intro h t hl _acc
    exfalso
    cases t <;> simp [iterate] at hl
  | cons a rest ih =>
    intro h t hl acc
    cases t with
    | nil =>
      simp [iterate] at hl
      obtain ⟨ha, hrest⟩ := hl
      subst ha; subst hrest
      simp only [List.foldlM]
      cases charlistStep acc (Except.ok h) with
      | none => rfl
      | some acc1 => rfl
    | cons h2 t2 =>
      simp [iterate] at hl
      obtain ⟨hit, ha⟩ := hl
      subst ha
      simp only [List.foldlM]
      cases hstep : charlistStep acc (Except.ok h) with
      | none => rfl
      | some acc1 => exact ih h2 t2 hit acc1
    | noneVal => simp [iterate] at hl
    | int i =>
      simp [iterate] at hl
      obtain ⟨ha, hrest⟩ := hl
      subst ha; subst hrest
      simp only [List.foldlM]
      cases charlistStep acc (Except.ok h) with
      | none => rfl
      | some acc1 => rfl
    | atom str =>
      simp [iterate] at hl
      obtain ⟨ha, hrest⟩ := hl
      subst ha; subst hrest
      simp only [List.foldlM]
      cases charlistStep acc (Except.ok h) with
      | none => rfl
      | some acc1 => rfl
    | tuple ts =>
      simp [iterate] at hl
      obtain ⟨ha, hrest⟩ := hl
      subst ha; subst hrest
      simp only [List.foldlM]
      cases charlistStep acc (Except.ok h) with
      | none => rfl
      | some acc1 => rfl

theorem get_charlist_size_none (c : ConsCell) :
    get_charlist_size_and_encoding c = none := by
  unfold get_charlist_size_and_encoding
  cases hit : iterate c.1 c.2 with
  | none => rfl
  | some l => exact foldlM_charlist_none l c.1 c.2 hit _

theorem charlist_to_binary_invalid (c : ConsCell) :
    charlist_to_binary c = Except.error CharlistToBinaryError.invalidList := by
  unfold charlist_to_binary
  rw [get_charlist_size_none]

end RtList

/-- C9: for every non-empty slice of terms (allocation always succeeds in
the model), `Cons::from_slice` returns the head cell of a proper list
(`is_proper` holds), and iterating it yields exactly the slice's elements in
slice order followed by the terminating nil that this `Iter` yields last. -/
theorem from_slice_proper_list (slice : List RtList.RtTerm)
    (h : slice ≠ []) :
    ∃ c, RtList.from_slice slice = some c ∧
      RtList.is_proper c = some true ∧
      RtList.iterate c.1 c.2 =
        some (slice.map Except.ok ++ [Except.ok RtList.RtTerm.nil]) := by
  obtain ⟨x, xs, rfl⟩ := List.exists_cons_of_ne_nil h
  refine ⟨(x, xs.foldr RtList.RtTerm.cons RtList.RtTerm.nil), ?_, ?_, ?_⟩
  · unfold RtList.from_slice RtList.ListBuilder.finish
    rw [RtList.foldl_push_head]
  · simp only [RtList.is_proper, RtList.iterate_foldr, Option.map_some]
    simp
  · exact RtList.iterate_foldr xs x

/-- Witness for `from_slice_proper_list` on the two-element slice `[1, 2]`. -/
theorem from_slice_proper_list_witness :
    ∃ c, RtList.from_slice [RtList.RtTerm.int 1, RtList.RtTerm.int 2] = some c ∧
      RtList.is_proper c = some true ∧
      RtList.iterate c.1 c.2 =
        some ([RtList.RtTerm.int 1, RtList.RtTerm.int 2].map Except.ok ++
          [Except.ok RtList.RtTerm.nil]) :=
  from_slice_proper_list [RtList.RtTerm.int 1, RtList.RtTerm.int 2]
    (by simp)

/-- C7 (divergence witness): no charlist-to-binary conversion ever produces
a binary in this code: the `Iter` yields the terminating nil as a final
element, `get_charlist_size_and_encoding` treats that non-integer element
as `InvalidList`, and `charlist_to_binary` therefore returns
`Err(InvalidList)` for every cons cell — in particular for the 64-byte
charlist of `"a"` repeated 64 times, which the spec says would be allocated
on the global reference-counted heap.  The `len < 64` threshold in
`charlist_to_binary` is thus dead code. -/
theorem charlist_to_binary_never_allocates :
    (∃ cell,
      RtList.charlist_from_str
        "aaaaaaaaaaaaaaaaaaaaaaaaaaaaaaaaaaaaaaaaaaaaaaaaaaaaaaaaaaaaaaaa" =
          some cell ∧
      RtList.charlist_to_binary cell =
        Except.error RtList.CharlistToBinaryError.invalidList) ∧
    (∀ c, RtList.charlist_to_binary c =
      Except.error RtList.CharlistToBinaryError.invalidList) := by
  refine ⟨?_, RtList.charlist_to_binary_invalid⟩
  obtain ⟨cell, hc⟩ := Option.isSome_iff_exists.mp
    (show (RtList.charlist_from_str
      "aaaaaaaaaaaaaaaaaaaaaaaaaaaaaaaaaaaaaaaaaaaaaaaaaaaaaaaaaaaaaaaa").isSome
      from rfl)
  exact ⟨cell, hc, RtList.charlist_to_binary_invalid cell⟩

namespace Mfa

theorem splitOnceList_not_mem (c : Char) :
    ∀ l : List Char, c ∉ l → splitOnceList c l = none := by
  intro l
  induction l with
  | nil => intro _; rfl
  | cons x xs ih =>
    intro h
    have hx : x ≠ c := fun hc => h (hc ▸ List.mem_cons_self x xs)
    have hxs : c ∉ xs := fun hc => h (List.mem_cons_of_mem x hc)
    simp [splitOnceList, hx, ih hxs]

theorem splitOnceList_append (c : Char) (l2 : List Char) :
    ∀ l1 : List Char, c ∉ l1 →
      splitOnceList c (l1 ++ c :: l2) = some (l1, l2) := by
  intro l1
  induction l1 with
  | nil => intro _; simp [splitOnceList]
  | cons x xs ih =>
    intro h
    have hx : x ≠ c := fun hc => h (hc ▸ List.mem_cons_self x xs)
    have hxs : c ∉ xs := fun hc => h (List.mem_cons_of_mem x hc)
    simp [splitOnceList, hx, ih hxs]

set_option maxRecDepth 4096 in
theorem parseU8_toString : ∀ n : Fin 256, parseU8 (toString n.1) = some n.1 := by
  decide

theorem display_toList (mfa : ModuleFunctionArity) :
    (display mfa).toList =
      mfa.module.toList ++ ':' ::
        (mfa.function.toList ++ '/' :: (toString mfa.arity).toList) := by
  show (mfa.module ++ ":" ++ mfa.function ++ "/" ++ toString mfa.arity).toList = _
  have h : ∀ a b : String, (a ++ b).toList = a.toList ++ b.toList := fun _ _ => rfl
  simp [h, List.append_assoc]

end Mfa

/-- C10: for every `ModuleFunctionArity` whose module and function names
contain no `:` or `/` (and whose arity fits a `u8`), `from_str` parses the
`Display` rendering `module:function/arity` back to the original value; and
`from_str` returns `Err` for every string without a `:`, with no `/` after
the first `:`, or whose arity segment does not parse as a `u8`. -/
theorem mfa_display_from_str_roundtrip :
    (∀ mfa : Mfa.ModuleFunctionArity, mfa.arity < 256 →
      (':' ∉ mfa.module.toList ∧ '/' ∉ mfa.module.toList) →
      (':' ∉ mfa.function.toList ∧ '/' ∉ mfa.function.toList) →
      Mfa.from_str (Mfa.display mfa) = some mfa) ∧
    (∀ s : String, ':' ∉ s.toList → Mfa.from_str s = none) ∧
    (∀ s m r, Mfa.splitOnce s ':' = some (m, r) → '/' ∉ r.toList →
      Mfa.from_str s = none) ∧
    (∀ s m r f a, Mfa.splitOnce s ':' = some (m, r) →
      Mfa.splitOnce r '/' = some (f, a) → Mfa.parseU8 a = none →
      Mfa.from_str s = none) := by
  refine ⟨fun mfa h256 hm hf => ?_, fun s h => ?_,
          fun s m r h1 h2 => ?_, fun s m r f a h1 h2 h3 => ?_⟩
  · have h1 : Mfa.splitOnce (Mfa.display mfa) ':' =
        some (mfa.module,
          String.mk (mfa.function.data ++ '/' :: (toString mfa.arity).data)) := by
      unfold Mfa.splitOnce
      rw [Mfa.display_toList, Mfa.splitOnceList_append _ _ _ hm.1]
      rfl
    have h2 : Mfa.splitOnce
        (String.mk (mfa.function.data ++ '/' :: (toString mfa.arity).data)) '/' =
        some (mfa.function, toString mfa.arity) := by
      unfold Mfa.splitOnce
      rw [show (String.mk
            (mfa.function.data ++ '/' :: (toString mfa.arity).data)).toList
          = mfa.function.data ++ '/' :: (toString mfa.arity).data from rfl]
      rw [Mfa.splitOnceList_append '/' ((toString mfa.arity).data)
        (mfa.function.data) hf.2]
      rfl
    have h3 : Mfa.parseU8 (toString mfa.arity) = some mfa.arity :=
      Mfa.parseU8_toString ⟨mfa.arity, h256⟩
    simp [Mfa.from_str, h1, h2, h3]
  · have h0 : Mfa.splitOnceList ':' s.data = none :=
      Mfa.splitOnceList_not_mem ':' s.data h
    simp [Mfa.from_str, Mfa.splitOnce, h0]
  · have h0 : Mfa.splitOnceList '/' r.data = none :=
      Mfa.splitOnceList_not_mem '/' r.data h2
    have hr : Mfa.splitOnce r '/' = none := by
      simp [Mfa.splitOnce, h0]
    simp [Mfa.from_str, h1, hr]
  · simp [Mfa.from_str, h1, h2, h3]

/-- Witness for `mfa_display_from_str_roundtrip`: `erlang:apply/2` round
trips; strings lacking the separators or with an out-of-range arity fail. -/
theorem mfa_display_from_str_roundtrip_witness :
    Mfa.from_str (Mfa.display ⟨"erlang", "apply", 2⟩) =
      some ⟨"erlang", "apply", 2⟩ ∧
    Mfa.from_str "noseparator" = none ∧
    Mfa.from_str "a:bc" = none ∧
    Mfa.from_str "a:b/999" = none :=
  ⟨mfa_display_from_str_roundtrip.1 ⟨"erlang", "apply", 2⟩ (by decide)
      (by constructor <;> decide) (by constructor <;> decide),
   mfa_display_from_str_roundtrip.2.1 "noseparator" (by decide),
   mfa_display_from_str_roundtrip.2.2.1 "a:bc" "a" "bc" rfl (by decide),
   mfa_display_from_str_roundtrip.2.2.2 "a:b/999" "a" "b/999" "b" "999" rfl rfl
     rfl⟩

namespace K2S

theorem insert_sorted_perm (x : Nat × ValueClause) :
    ∀ l, (insert_sorted x l).Perm (x :: l) := by
  intro l
  induction l with
  | nil => exact List.Perm.refl _
  | cons y ys ih =>
    by_cases h : x.1 < y.1
    · simp [insert_sorted, h]
    · simp only [insert_sorted, if_neg h]
      exact (ih.cons y).trans (List.Perm.swap x y ys)

theorem insert_sorted_sorted (x : Nat × ValueClause) :
    ∀ l, l.Sorted keyLe → (insert_sorted x l).Sorted keyLe := by
  intro l
  induction l with
  | nil => intro _; simp [insert_sorted, List.sorted_singleton]
  | cons y ys ih =>
    intro h
    rw [List.sorted_cons] at h
    obtain ⟨hy, hys⟩ := h
    by_cases hlt : x.1 < y.1
    · simp only [insert_sorted, if_pos hlt]
      rw [List.sorted_cons]
      refine ⟨?_, ?_⟩
      · intro b hb
        rcases List.mem_cons.mp hb with hb | hb
        · exact hb ▸ le_of_lt hlt
        · exact le_trans (le_of_lt hlt) (hy b hb)
      · rw [List.sorted_cons]; exact ⟨hy, hys⟩
    · simp only [insert_sorted, if_neg hlt]
      rw [List.sorted_cons]
      refine ⟨?_, ih hys⟩
      intro b hb
      have hb2 : b ∈ x :: ys := (insert_sorted_perm x ys).mem_iff.mp hb
      rcases List.mem_cons.mp hb2 with hb2 | hb2
      · exact hb2 ▸ le_of_not_lt hlt
      · exact hy b hb2

theorem sort_by_key_perm (l : List (Nat × ValueClause)) :
    (sort_by_key l).Perm l := by
  have aux : ∀ (l acc : List (Nat × ValueClause)),
      (l.foldl (fun acc x => insert_sorted x acc) acc).Perm (l ++ acc) := by
    intro l
    induction l with
    | nil => intro acc; simp
    | cons x xs ih =>
      intro acc
      simp only [List.foldl_cons]
      refine (ih (insert_sorted x acc)).trans ?_
      refine (List.Perm.append_left xs (insert_sorted_perm x acc)).trans ?_
      exact List.perm_middle
  have h := aux l []
  simpa [sort_by_key] using h

theorem sort_by_key_sorted (l : List (Nat × ValueClause)) :
    (sort_by_key l).Sorted keyLe := by
  have aux : ∀ (l acc : List (Nat × ValueClause)), acc.Sorted keyLe →
      (l.foldl (fun acc x => insert_sorted x acc) acc).Sorted keyLe := by
    intro l
    induction l with
    | nil => intro acc h; exact h
    | cons x xs ih =>
      intro acc h
      exact ih _ (insert_sorted_sorted x acc h)
  exact aux l [] (by simp)

theorem keys_sorted (l : List (Nat × ValueClause)) :
    ((sort_by_key l).map Prod.fst).Sorted (· ≤ ·) :=
  List.Pairwise.map Prod.fst (fun _ _ hab => hab) (sort_by_key_sorted l)

theorem chain_ne_of_adjacent_dup_false :
    ∀ l : List Nat, adjacent_dup l = false → l.Chain' (· ≠ ·) := by
  intro l
  match l with
  | [] => intro _; simp
  | [a] => intro _; simp
  | a :: b :: rest =>
    intro h
    simp only [adjacent_dup, Bool.or_eq_false_iff, beq_eq_false_iff_ne] at h
    exact List.Chain'.cons h.1 (chain_ne_of_adjacent_dup_false (b :: rest) h.2)

theorem chain_lt_of_sorted_ne :
    ∀ l : List Nat, l.Sorted (· ≤ ·) → l.Chain' (· ≠ ·) → l.Chain' (· < ·) := by
  intro l
  match l with
  | [] => intro _ _; simp
  | [a] => intro _ _; simp
  | a :: b :: rest =>
    intro hs hne
    rw [List.chain'_cons] at hne ⊢
    rw [List.sorted_cons] at hs
    refine ⟨lt_of_le_of_ne (hs.1 b (List.mem_cons_self b rest)) hne.1, ?_⟩
    exact chain_lt_of_sorted_ne (b :: rest) hs.2 hne.2

theorem sorted_lt_of_adjacent_dup_false (l : List Nat)
    (hs : l.Sorted (· ≤ ·)) (h : adjacent_dup l = false) :
    l.Sorted (· < ·) :=
  List.chain'_iff_pairwise.mp
    (chain_lt_of_sorted_ne l hs (chain_ne_of_adjacent_dup_false l h))

theorem nodup_of_adjacent_dup_false (l : List Nat)
    (hs : l.Sorted (· ≤ ·)) (h : adjacent_dup l = false) : l.Nodup :=
  (sorted_lt_of_adjacent_dup_false l hs h).imp ne_of_lt

end K2S

/-- C3 counterexample: lowering a call while the fail context is `Guard`
aborts by `panic!` — the outcome carries no reporter diagnostic (no source
span is ever handed to the reporter), contradicting the claim that every
such compile-time error condition leaves a diagnostic with the offending
span in the reporter. -/
theorem guard_call_panics_without_diagnostic :
    K2S.lower { fail := 2, ultimate := 1 } (K2S.KExpr.call 5 "foo" [] none) =
      K2S.Res.panicked "invalid callee in guard" := rfl

/-- C3 (amended): undefined variable references and redundant
return/break after a terminator with a non-exception value abort the
module with a reporter diagnostic carrying the offending source span,
while a disallowed call form inside a guard and a duplicate arity among
the value clauses of a tuple Select abort lowering by `panic!` without a
reporter diagnostic. -/
theorem lowering_abort_modes :
    (∀ (s : K2S.St) sp sp2 name, K2S.lookup_var s name = none →
      K2S.lower s (K2S.KExpr.ret1 sp2 (K2S.KAtom.var sp name)) =
        K2S.Res.diag sp "use of undefined variable") ∧
    (∀ (s : K2S.St) sp sp2 name v, K2S.lookup_var s name = some v →
      K2S.is_current_block_terminated s = true →
      K2S.value_type s v ≠ K2S.Ty.exception →
      K2S.lower s (K2S.KExpr.ret1 sp (K2S.KAtom.var sp2 name)) =
        K2S.Res.diag sp
          "skipped generating return as block is already terminated") ∧
    (∀ (s : K2S.St) sp sp2 name v, K2S.lookup_var s name = some v →
      K2S.is_current_block_terminated s = true →
      K2S.value_type s v ≠ K2S.Ty.exception →
      K2S.lower s (K2S.KExpr.brk1 sp [K2S.KAtom.var sp2 name]) =
        K2S.Res.diag sp
          "skipped generating break as block is already terminated") ∧
    (∀ (s : K2S.St) sp callee args retVar b,
      K2S.fail_context s = K2S.FailContext.Guard b →
      K2S.lower s (K2S.KExpr.call sp callee args retVar) =
        K2S.Res.panicked "invalid callee in guard") ∧
    (∀ (s : K2S.St) varName values type_fail value_fail,
      ¬ (values.map (fun vc => vc.elements.length)).Nodup →
      K2S.lower_select_tuple s varName values type_fail value_fail =
        K2S.Res.panicked "found duplicate select clause for arity") := by
  refine ⟨fun s sp sp2 name h => ?_,
          fun s sp sp2 name v h1 h2 h3 => ?_,
          fun s sp sp2 name v h1 h2 h3 => ?_,
          fun s sp callee args retVar b hg => ?_,
          fun s varName values type_fail value_fail hdup => ?_⟩
  · simp [K2S.lower, K2S.ssa_value, h]
  · simp only [K2S.lower, K2S.ssa_value, h1, h2, if_true]
  · simp only [K2S.lower, K2S.ssa_values, K2S.ssa_value, h1, h2, if_true]
  · simp [K2S.lower, hg]
  · have hadj : K2S.adjacent_dup
        ((K2S.sort_by_key
          (values.map (fun vc => (vc.elements.length, vc)))).map Prod.fst) =
        true := by
      by_contra hfalse
      rw [Bool.not_eq_true] at hfalse
      have hnodup := K2S.nodup_of_adjacent_dup_false _
        (K2S.keys_sorted _) hfalse
      have hperm : ((K2S.sort_by_key
          (values.map (fun vc => (vc.elements.length, vc)))).map
            Prod.fst).Perm (values.map (fun vc => vc.elements.length)) := by
        have h0 := (K2S.sort_by_key_perm
          (values.map (fun vc => (vc.elements.length, vc)))).map Prod.fst
        simpa [List.map_map, Function.comp] using h0
      exact hdup (hperm.nodup hnodup)
    simp only [K2S.lower_select_tuple, hadj, if_true]

/-- Witness for `lowering_abort_modes` at concrete inputs: an undefined
variable, a return and a break after a `ret_ok` terminator, a call inside a
guard, and a tuple Select with two arity-1 clauses. -/
theorem lowering_abort_modes_witness :
    K2S.lower {} (K2S.KExpr.ret1 0 (K2S.KAtom.var 1 "X")) =
      K2S.Res.diag 1 "use of undefined variable" ∧
    K2S.lower
        (K2S.define_var "X" 7
          (K2S.emit (K2S.Inst.retOk 5) K2S.function_entry_state))
        (K2S.KExpr.ret1 3 (K2S.KAtom.var 4 "X")) =
      K2S.Res.diag 3
        "skipped generating return as block is already terminated" ∧
    K2S.lower
        (K2S.define_var "X" 7
          (K2S.emit (K2S.Inst.retOk 5) K2S.function_entry_state))
        (K2S.KExpr.brk1 3 [K2S.KAtom.var 4 "X"]) =
      K2S.Res.diag 3
        "skipped generating break as block is already terminated" ∧
    K2S.lower { fail := 9, ultimate := 1 } (K2S.KExpr.call 2 "bar" [] none) =
      K2S.Res.panicked "invalid callee in guard" ∧
    K2S.lower_select_tuple {} "X"
        [⟨0, [⟨0, "A", false⟩], K2S.KExpr.ret1 0 (K2S.KAtom.var 0 "A")⟩,
         ⟨0, [⟨0, "B", false⟩], K2S.KExpr.ret1 0 (K2S.KAtom.var 0 "B")⟩]
        1 1 =
      K2S.Res.panicked "found duplicate select clause for arity" :=
  ⟨lowering_abort_modes.1 {} 1 0 "X" rfl,
   lowering_abort_modes.2.1 _ 3 4 "X" 7 rfl rfl (by decide),
   lowering_abort_modes.2.2.1 _ 3 4 "X" 7 rfl rfl (by decide),
   lowering_abort_modes.2.2.2.1 { fail := 9, ultimate := 1 } 2 "bar" [] none 9
     rfl,
   lowering_abort_modes.2.2.2.2 {} "X" _ 1 1 (by decide)⟩

namespace K2S

theorem OnlyCur.refl (s : St) : OnlyCur s s := ⟨rfl, rfl, fun _ _ => rfl⟩

theorem OnlyCur.trans {s1 s2 s3 : St} (h1 : OnlyCur s1 s2) (h2 : OnlyCur s2 s3) :
    OnlyCur s1 s3 :=
  ⟨h2.nextBlock_eq.trans h1.nextBlock_eq, h2.cur_eq.trans h1.cur_eq,
   fun b hb => ((h2.blocks_eq b (h1.cur_eq ▸ hb)).trans (h1.blocks_eq b hb))⟩

theorem OnlyCur.to_ext {s s2 : St} (h : OnlyCur s s2) : Ext s s2 :=
  ⟨le_of_eq h.nextBlock_eq.symm, fun b hb _ => h.blocks_eq b hb,
   Or.inl h.cur_eq⟩

theorem Ext.trans_ext {s1 s2 s3 : St} (h1 : Ext s1 s2) (h2 : Ext s2 s3) :
    Ext s1 s3 := by
  refine ⟨le_trans h1.nextBlock_le h2.nextBlock_le, ?_, ?_⟩
  · intro b hb hlt
    have hb2 : b ≠ s2.cur := by
      rcases h1.cur_ok with hc | hc
      · exact hc ▸ hb
      · exact fun hEq => (not_le.mpr hlt) (hEq ▸ hc)
    exact (h2.blocks_eq b hb2 (lt_of_lt_of_le hlt h1.nextBlock_le)).trans
      (h1.blocks_eq b hb hlt)
  · rcases h2.cur_ok with hc | hc
    · rcases h1.cur_ok with hc1 | hc1
      · exact Or.inl (hc.trans hc1)
      · exact Or.inr (hc ▸ hc1)
    · exact Or.inr (le_trans h1.nextBlock_le hc)

theorem emit_onlyCur (i : Inst) (s : St) : OnlyCur s (emit i s) := by
  refine ⟨rfl, rfl, fun b hb => ?_⟩
  simp [emit, updateBlock, hb]

theorem emit1_onlyCur (mk : Value → Inst) (ty : Ty) (s : St) :
    OnlyCur s (emit1 mk ty s).2 := by
  refine ⟨rfl, rfl, fun b hb => ?_⟩
  simp [emit1, emit, updateBlock, hb]

theorem emit_call_onlyCur (callee : String) (args : List Value) (s : St) :
    OnlyCur s (emit_call callee args s).2 := by
  refine ⟨rfl, rfl, fun b hb => ?_⟩
  simp [emit_call, emit, updateBlock, hb]

theorem define_var_onlyCur (n : String) (v : Value) (s : St) :
    OnlyCur s (define_var n v s) := ⟨rfl, rfl, fun _ _ => rfl⟩

theorem set_value_type_onlyCur (v : Value) (ty : Ty) (s : St) :
    OnlyCur s (set_value_type v ty s) := ⟨rfl, rfl, fun _ _ => rfl⟩

theorem ssa_value_onlyCur {s : St} {a : KAtom} {v : Value} {s2 : St}
    (h : ssa_value s a = Res.ok v s2) : OnlyCur s s2 := by
  cases a with
  | var sp name =>
    unfold ssa_value at h
    dsimp only at h
    cases hv : lookup_var s name with
    | some w => rw [hv] at h; cases h; exact OnlyCur.refl s
    | none => rw [hv] at h; cases h
  | lit sp l =>
    unfold ssa_value at h
    dsimp only at h
    cases h
    refine ⟨rfl, rfl, fun b hb => ?_⟩
    exact (emit1_onlyCur _ _ s).blocks_eq b hb

theorem ssa_values_onlyCur :
    ∀ (args : List KAtom) {s : St} {vs : List Value} {s2 : St},
      ssa_values s args = Res.ok vs s2 → OnlyCur s s2 := by
  intro args
  induction args with
  | nil =>
    intro s vs s2 h
    unfold ssa_values at h
    cases h
    exact OnlyCur.refl s
  | cons a rest ih =>
    intro s vs s2 h
    unfold ssa_values at h
    cases hv : ssa_value s a with
    | ok v s1 =>
      rw [hv] at h
      dsimp only at h
      cases hvs : ssa_values s1 rest with
      | ok ws s3 =>
        rw [hvs] at h
        cases h
        exact (ssa_value_onlyCur hv).trans (ih hvs)
      | diag sp m => rw [hvs] at h; cases h
      | panicked m => rw [hvs] at h; cases h
    | diag sp m => rw [hv] at h; cases h
    | panicked m => rw [hv] at h; cases h

end K2S

namespace K2S

theorem catch_setup_spec (s : St) (rv : String) :
    Ext s (catch_setup s rv).1 ∧
    (catch_setup s rv).1.cur = s.cur ∧
    (catch_setup s rv).1.nextBlock = s.nextBlock + 3 ∧
    (catch_setup s rv).2 = s.nextBlock + 1 := by
  refine ⟨⟨?_, ?_, ?_⟩, rfl, rfl, rfl⟩
  · exact Nat.le_add_right _ 3
  · intro b hb hlt
    have h0 : ¬ b = s.nextBlock := Nat.ne_of_lt hlt
    have h1 : ¬ b = s.nextBlock + 1 :=
      Nat.ne_of_lt (Nat.lt_succ_of_lt hlt)
    have h2 : ¬ b = s.nextBlock + 2 :=
      Nat.ne_of_lt (Nat.lt_succ_of_lt (Nat.lt_succ_of_lt hlt))
    show (catch_setup s rv).1.blocks b = s.blocks b
    simp only [catch_setup, create_block, append_block_param, emit1, emit,
      updateBlock, switch_to_block, define_var, h0, h1, h2, if_false,
      ite_false]
  · exact Or.inl rfl

end K2S

namespace K2S

theorem lower_catch_with_ext (lowerBody : St → Res Unit)
    (hbody : ∀ s s2, lowerBody s = Res.ok () s2 → Ext s s2) :
    ∀ (s : St) (sp : Span) (rv : String) (s2 : St),
      lower_catch_with lowerBody s sp rv = Res.ok () s2 → Ext s s2 := by
  intro s sp rv s2 h
  unfold lower_catch_with at h
  rcases hcs : catch_setup s rv with ⟨S, rb⟩
  rw [hcs] at h
  dsimp only at h
  cases hlb : lowerBody S with
  | ok u s3 =>
    rw [hlb] at h
    dsimp only at h
    cases h
    obtain ⟨hext, hcur, hnb, hrb⟩ := catch_setup_spec s rv
    rw [hcs] at hext hcur hnb hrb
    dsimp only at hext hcur hnb hrb
    have hbodyExt := hbody S s3 hlb
    refine ⟨?_, ?_, ?_⟩
    · exact le_trans hext.nextBlock_le hbodyExt.nextBlock_le
    · intro b hb hlt
      show s3.blocks b = s.blocks b
      have hbS : b ≠ S.cur := hcur ▸ hb
      have hltS : b < S.nextBlock :=
        lt_of_lt_of_le hlt hext.nextBlock_le
      exact (hbodyExt.blocks_eq b hbS hltS).trans (hext.blocks_eq b hb hlt)
    · refine Or.inr ?_
      show s.nextBlock ≤ rb
      rw [hrb]
      exact Nat.le_add_right _ 1
  | diag sp2 m => rw [hlb] at h; dsimp only at h; cases h
  | panicked m => rw [hlb] at h; dsimp only at h; cases h

end K2S

namespace K2S

theorem lower_ext : ∀ (e : KExpr) (s s2 : St),
    lower s e = Res.ok () s2 → Ext s s2 := by
  intro e
  induction e with
  | seq a b iha ihb =>
    intro s s2 h
    unfold lower at h
    cases hla : lower s a with
    | ok u s1 =>
      cases u
      rw [hla] at h
      dsimp only at h
      exact Ext.trans_ext (iha s s1 hla) (ihb s1 s2 h)
    | diag sp m => rw [hla] at h; dsimp only at h; cases h
    | panicked m => rw [hla] at h; dsimp only at h; cases h
  | ret1 sp arg =>
    intro s s2 h
    unfold lower at h
    cases hv : ssa_value s arg with
    | ok v s1 =>
      rw [hv] at h
      dsimp only at h
      have hoc := ssa_value_onlyCur hv
      split at h
      · split at h
        · cases h
          exact hoc.to_ext
        · cases h
      · cases h
        exact (hoc.trans (emit_onlyCur _ _)).to_ext
    | diag sp2 m => rw [hv] at h; dsimp only at h; cases h
    | panicked m => rw [hv] at h; dsimp only at h; cases h
  | brk1 sp args =>
    intro s s2 h
    unfold lower at h
    cases hvs : ssa_values s args with
    | ok vs s1 =>
      rw [hvs] at h
      dsimp only at h
      have hoc := ssa_values_onlyCur args hvs
      split at h
      · split at h
        · split at h
          · cases h
            exact hoc.to_ext
          · cases h
        · cases h
      · split at h
        · cases h
          exact (hoc.trans (emit_onlyCur _ _)).to_ext
        · cases h
    | diag sp2 m => rw [hvs] at h; dsimp only at h; cases h
    | panicked m => rw [hvs] at h; dsimp only at h; cases h
  | call sp callee args retVar =>
    intro s s2 h
    unfold lower at h
    cases hfc : fail_context s with
    | Guard b => rw [hfc] at h; dsimp only at h; cases h
    | Uncaught b =>
      rw [hfc] at h
      dsimp only at h
      cases hvs : ssa_values s args with
      | ok vs s1 =>
        rw [hvs] at h
        dsimp only at h
        rcases hec : emit_call callee vs s1 with ⟨⟨f, r⟩, s4⟩
        rw [hec] at h
        dsimp only at h
        have hc1 := ssa_values_onlyCur args hvs
        have hc2 := emit_call_onlyCur callee vs s1
        rw [hec] at hc2
        cases retVar with
        | none =>
          dsimp only at h
          cases h
          exact ((hc1.trans hc2).trans (emit_onlyCur _ _)).to_ext
        | some rv =>
          dsimp only at h
          cases h
          exact ((hc1.trans (hc2.trans (define_var_onlyCur _ _ _))).trans
            (emit_onlyCur _ _)).to_ext
      | diag sp2 m => rw [hvs] at h; dsimp only at h; cases h
      | panicked m => rw [hvs] at h; dsimp only at h; cases h
    | Catch b =>
      rw [hfc] at h
      dsimp only at h
      cases hvs : ssa_values s args with
      | ok vs s1 =>
        rw [hvs] at h
        dsimp only at h
        rcases hec : emit_call callee vs s1 with ⟨⟨f, r⟩, s4⟩
        rw [hec] at h
        dsimp only at h
        have hc1 := ssa_values_onlyCur args hvs
        have hc2 := emit_call_onlyCur callee vs s1
        rw [hec] at hc2
        cases retVar with
        | none =>
          dsimp only at h
          cases h
          exact ((hc1.trans hc2).trans (emit_onlyCur _ _)).to_ext
        | some rv =>
          dsimp only at h
          cases h
          exact ((hc1.trans (hc2.trans (define_var_onlyCur _ _ _))).trans
            (emit_onlyCur _ _)).to_ext
      | diag sp2 m => rw [hvs] at h; dsimp only at h; cases h
      | panicked m => rw [hvs] at h; dsimp only at h; cases h
  | enter sp callee args =>
    intro s s2 h
    unfold lower at h
    cases hfc : fail_context s with
    | Uncaught b =>
      rw [hfc] at h
      dsimp only at h
      cases hvs : ssa_values s args with
      | ok vs s1 =>
        rw [hvs] at h
        dsimp only at h
        cases h
        exact ((ssa_values_onlyCur args hvs).trans (emit_onlyCur _ _)).to_ext
      | diag sp2 m => rw [hvs] at h; dsimp only at h; cases h
      | panicked m => rw [hvs] at h; dsimp only at h; cases h
    | Catch b => rw [hfc] at h; dsimp only at h; cases h
    | Guard b => rw [hfc] at h; dsimp only at h; cases h
  | catchExpr sp body retVar ih =>
    intro s s2 h
    unfold lower at h
    exact lower_catch_with_ext (fun s => lower s body)
      (fun s s2 hb => ih s s2 hb) s sp retVar s2 h
  | bifRaise sp op args retVar =>
    intro s s2 h
    unfold lower at h
    cases hvs : ssa_values s args with
    | ok vs s1 =>
      rw [hvs] at h
      dsimp only at h
      rcases hec : emit_call op vs s1 with ⟨⟨f, r⟩, s4⟩
      rw [hec] at h
      dsimp only at h
      have hc1 := ssa_values_onlyCur args hvs
      have hc2 := emit_call_onlyCur op vs s1
      rw [hec] at hc2
      cases retVar with
      | none =>
        dsimp only at h
        split at h
        · cases h
          exact ((hc1.trans hc2).trans (emit_onlyCur _ _)).to_ext
        · cases h
          exact ((hc1.trans hc2).trans (emit_onlyCur _ _)).to_ext
        · cases h
      | some rv =>
        dsimp only at h
        split at h
        · cases h
          exact ((hc1.trans (hc2.trans ((define_var_onlyCur _ _ _).trans
            (set_value_type_onlyCur _ _ _)))).trans (emit_onlyCur _ _)).to_ext
        · cases h
          exact ((hc1.trans (hc2.trans ((define_var_onlyCur _ _ _).trans
            (set_value_type_onlyCur _ _ _)))).trans (emit_onlyCur _ _)).to_ext
        · cases h
    | diag sp2 m => rw [hvs] at h; dsimp only at h; cases h
    | panicked m => rw [hvs] at h; dsimp only at h; cases h

end K2S

namespace K2S

/-- `create_blocks` hands out the next `n` block ids in order, leaves every
pre-existing block (and the cursor, value counter and variable scope)
untouched, and installs an empty block under each fresh id. -/
theorem create_blocks_spec : ∀ (n : Nat) (s : St),
    (create_blocks n s).1 = List.range' s.nextBlock n ∧
    (create_blocks n s).2.nextBlock = s.nextBlock + n ∧
    (create_blocks n s).2.cur = s.cur ∧
    (create_blocks n s).2.nextValue = s.nextValue ∧
    (create_blocks n s).2.vars = s.vars ∧
    (∀ b, b < s.nextBlock → (create_blocks n s).2.blocks b = s.blocks b) ∧
    (∀ b, b ∈ List.range' s.nextBlock n →
      (create_blocks n s).2.blocks b = some BlockData.empty) := by
  intro n
  induction n with
  | zero =>
    intro s
    refine ⟨rfl, rfl, rfl, rfl, rfl, fun b _ => rfl, fun b hb => ?_⟩
    simp [List.range'] at hb
  | succ n ih =>
    intro s
    obtain ⟨h1, h2, h3, h4, h5, h6, h7⟩ := ih (create_block s).2
    have hnb : (create_block s).2.nextBlock = s.nextBlock + 1 := rfl
    have hcb : ∀ b, (create_block s).2.blocks b =
        if b = s.nextBlock then some BlockData.empty else s.blocks b :=
      fun b => rfl
    refine ⟨?_, ?_, h3, h4, h5, ?_, ?_⟩
    · show (create_block s).1 :: (create_blocks n (create_block s).2).1 = _
      rw [h1, hnb, List.range'_succ]
      rfl
    · show (create_blocks n (create_block s).2).2.nextBlock = _
      rw [h2, hnb]
      omega
    · intro b hb
      show (create_blocks n (create_block s).2).2.blocks b = s.blocks b
      rw [h6 b (by rw [hnb]; omega), hcb b, if_neg (Nat.ne_of_lt hb)]
    · intro b hb
      rw [List.range'_succ] at hb
      rcases List.mem_cons.mp hb with hb | hb
      · subst hb
        show (create_blocks n (create_block s).2).2.blocks s.nextBlock = _
        rw [h6 s.nextBlock (by rw [hnb]; omega), hcb, if_pos rfl]
      · show (create_blocks n (create_block s).2).2.blocks b = _
        exact h7 b (by rw [hnb]; exact hb)

end K2S

namespace K2S

/-- `emit` appends its instruction to the current block. -/
theorem emit_cur_insts {s : St} {d : BlockData} (i : Inst)
    (h : s.blocks s.cur = some d) :
    (emit i s).blocks s.cur = some
      ⟨d.params, d.insts ++ [i], d.terminated || i.isTerminator⟩ := by
  simp [emit, updateBlock, h]

/-- `emit1` appends its instruction, built over the fresh result value, to
the current block. -/
theorem emit1_cur_insts {s : St} {d : BlockData} (mk : Value → Inst) (ty : Ty)
    (h : s.blocks s.cur = some d) :
    (emit1 mk ty s).2.blocks s.cur = some
      ⟨d.params, d.insts ++ [mk s.nextValue],
       d.terminated || (mk s.nextValue).isTerminator⟩ := by
  simp [emit1, emit, updateBlock, h]

/-- `emit_call` appends a non-terminating `call` with two fresh results to
the current block. -/
theorem emit_call_cur_insts {s : St} {d : BlockData} (callee : String)
    (args : List Value) (h : s.blocks s.cur = some d) :
    (emit_call callee args s).2.blocks s.cur = some
      ⟨d.params,
       d.insts ++ [Inst.callFn s.nextValue (s.nextValue + 1) callee args],
       d.terminated⟩ := by
  simp [emit_call, emit, updateBlock, Inst.isTerminator, h]

/-- `bind_elements` works entirely inside the current block: it appends
exactly the `get_element_imm` instructions described by `elem_binds` (one
per non-`Unused` element) and changes no other block. -/
theorem bind_elements_spec :
    ∀ (elems : List TupleElem) (s : St) (src : Value) (i : Nat),
      (bind_elements s src i elems).cur = s.cur ∧
      (bind_elements s src i elems).nextBlock = s.nextBlock ∧
      (∀ b, b ≠ s.cur → (bind_elements s src i elems).blocks b = s.blocks b) ∧
      (∀ d, s.blocks s.cur = some d →
        (bind_elements s src i elems).blocks s.cur = some
          ⟨d.params, d.insts ++ elem_binds src s.nextValue i elems,
           d.terminated⟩) := by
  intro elems
  induction elems with
  | nil =>
    intro s src i
    refine ⟨rfl, rfl, fun _ _ => rfl, fun d hd => ?_⟩
    simp [bind_elements, elem_binds, hd]
  | cons e rest ih =>
    intro s src i
    by_cases hu : e.unused
    · obtain ⟨h1, h2, h3, h4⟩ := ih s src (i + 1)
      refine ⟨?_, ?_, ?_, ?_⟩
      · show (bind_elements s src i (e :: rest)).cur = s.cur
        simp only [bind_elements, if_pos hu]
        exact h1
      · simp only [bind_elements, if_pos hu]
        exact h2
      · intro b hb
        simp only [bind_elements, if_pos hu]
        exact h3 b hb
      · intro d hd
        simp only [bind_elements, if_pos hu]
        have := h4 d hd
        simpa [elem_binds, if_pos hu] using this
    · -- the element is bound: one get_element_imm then recurse
      have hmid : ∀ p : Value × St,
          p = emit1 (fun r => Inst.getElementImm r src i) Ty.term s →
          True := fun _ _ => trivial
      obtain ⟨h1, h2, h3, h4⟩ := ih
        (define_var e.name
          (emit1 (fun r => Inst.getElementImm r src i) Ty.term s).1
          (emit1 (fun r => Inst.getElementImm r src i) Ty.term s).2)
        src (i + 1)
      have hcur2 : (define_var e.name
          (emit1 (fun r => Inst.getElementImm r src i) Ty.term s).1
          (emit1 (fun r => Inst.getElementImm r src i) Ty.term s).2).cur =
          s.cur := rfl
      have hnb2 : (define_var e.name
          (emit1 (fun r => Inst.getElementImm r src i) Ty.term s).1
          (emit1 (fun r => Inst.getElementImm r src i) Ty.term s).2).nextBlock =
          s.nextBlock := rfl
      refine ⟨?_, ?_, ?_, ?_⟩
      · simp only [bind_elements, if_neg hu]
        rw [h1]
        exact hcur2
      · simp only [bind_elements, if_neg hu]
        rw [h2]
        exact hnb2
      · intro b hb
        simp only [bind_elements, if_neg hu]
        rw [h3 b (by rw [hcur2]; exact hb)]
        show (emit1 (fun r => Inst.getElementImm r src i) Ty.term s).2.blocks b
          = s.blocks b
        exact (emit1_onlyCur _ _ s).blocks_eq b hb
      · intro d hd
        simp only [bind_elements, if_neg hu]
        have hd2 : (define_var e.name
            (emit1 (fun r => Inst.getElementImm r src i) Ty.term s).1
            (emit1 (fun r => Inst.getElementImm r src i) Ty.term s).2).blocks
            s.cur = some ⟨d.params,
              d.insts ++ [Inst.getElementImm s.nextValue src i],
              d.terminated⟩ := by
          show (emit1 (fun r => Inst.getElementImm r src i) Ty.term s).2.blocks
            s.cur = _
          have := emit1_cur_insts (fun r => Inst.getElementImm r src i)
            Ty.term hd
          simpa [Inst.isTerminator] using this
        have h4app := h4 ⟨d.params,
          d.insts ++ [Inst.getElementImm s.nextValue src i], d.terminated⟩ hd2
        rw [hcur2] at h4app
        rw [h4app]
        simp only [elem_binds, if_neg hu]
        simp [List.append_assoc]
        rfl
end K2S

namespace K2S

/-- `bind_elements` only adds variable bindings: every variable in scope
stays in scope, and every non-`Unused` tuple element's name is bound
afterwards. -/
theorem bind_elements_vars :
    ∀ (elems : List TupleElem) (s : St) (src : Value) (i : Nat),
      (∀ n, (s.vars n).isSome = true →
        ((bind_elements s src i elems).vars n).isSome = true) ∧
      (∀ e ∈ elems, ¬ e.unused = true →
        ((bind_elements s src i elems).vars e.name).isSome = true) := by
  intro elems
  induction elems with
  | nil =>
    intro s src i
    exact ⟨fun n h => h, fun e he _ => absurd he (List.not_mem_nil e)⟩
  | cons e rest ih =>
    intro s src i
    by_cases hu : e.unused
    · obtain ⟨h1, h2⟩ := ih s src (i + 1)
      refine ⟨?_, ?_⟩
      · intro n h
        simp only [bind_elements, if_pos hu]
        exact h1 n h
      · intro e2 he2 hu2
        simp only [bind_elements, if_pos hu]
        rcases List.mem_cons.mp he2 with he2 | he2
        · exact absurd (he2 ▸ hu) hu2
        · exact h2 e2 he2 hu2
    · obtain ⟨h1, h2⟩ := ih
        (define_var e.name
          (emit1 (fun r => Inst.getElementImm r src i) Ty.term s).1
          (emit1 (fun r => Inst.getElementImm r src i) Ty.term s).2)
        src (i + 1)
      refine ⟨?_, ?_⟩
      · intro n h
        simp only [bind_elements, if_neg hu]
        apply h1
        show (if n = e.name then some _ else s.vars n).isSome = true
        split
        · rfl
        · exact h
      · intro e2 he2 hu2
        simp only [bind_elements, if_neg hu]
        rcases List.mem_cons.mp he2 with he2 | he2
        · subst he2
          apply h1
          show (if e2.name = e2.name then some _ else _).isSome = true
          rw [if_pos rfl]
          rfl
        · exact h2 e2 he2 hu2

/-- The per-clause loop of the tuple `Select` lowering: the block counter
is monotone, every block outside the clause-block set keeps its data, and
for every clause the loop switched to its block, bound the tuple elements
there (`elem_binds` content, with every non-`Unused` name in scope), then
lowered the clause body with `value_fail` as its fail continuation — and no
later clause disturbed the finished block. -/
theorem lower_arms_spec :
    ∀ (arms : List ((Nat × ValueClause) × Block)) (s : St) (src : Value)
      (vf : Block) (s2 : St),
      lower_arms s src vf arms = Res.ok () s2 →
      (arms.map Prod.snd).Nodup →
      (∀ p ∈ arms, p.2 < s.nextBlock) →
      (∀ p ∈ arms, s.blocks p.2 = some BlockData.empty) →
      s.nextBlock ≤ s2.nextBlock ∧
      (∀ b, b < s.nextBlock → b ∉ arms.map Prod.snd →
        s2.blocks b = s.blocks b) ∧
      (∀ p ∈ arms, ∃ sMid sPost : St,
        sMid.cur = p.2 ∧
        sMid.blocks p.2 = some BlockData.empty ∧
        (bind_elements sMid src 0 p.1.2.elements).blocks p.2 =
          some ⟨[], elem_binds src sMid.nextValue 0 p.1.2.elements, false⟩ ∧
        (∀ e ∈ p.1.2.elements, ¬ e.unused = true →
          ((bind_elements sMid src 0 p.1.2.elements).vars e.name).isSome =
            true) ∧
        lower_match (bind_elements sMid src 0 p.1.2.elements) vf p.1.2.body =
          Res.ok () sPost ∧
        s2.blocks p.2 = sPost.blocks p.2) := by
  intro arms
  induction arms with
  | nil =>
    intro s src vf s2 h _ _ _
    simp only [lower_arms] at h
    cases h
    exact ⟨le_rfl, fun b _ _ => rfl, fun p hp => absurd hp (List.not_mem_nil p)⟩
  | cons p rest ih =>
    obtain ⟨⟨key, vc⟩, blk⟩ := p
    intro s src vf s2 h hnd hlt hemp
    simp only [lower_arms] at h
    cases hlm : lower_match
        (bind_elements (switch_to_block blk s) src 0 vc.elements) vf vc.body with
    | ok u sPost =>
      cases u
      rw [hlm] at h
      dsimp only at h
      -- footprint facts about the bind step and the body lowering
      obtain ⟨hbcur0, hbnb0, hbpres0, hbcont0⟩ :=
        bind_elements_spec vc.elements (switch_to_block blk s) src 0
      have hbcur : (bind_elements (switch_to_block blk s) src 0
          vc.elements).cur = blk := hbcur0
      have hbnb : (bind_elements (switch_to_block blk s) src 0
          vc.elements).nextBlock = s.nextBlock := hbnb0
      have hbpres : ∀ b, b ≠ blk →
          (bind_elements (switch_to_block blk s) src 0 vc.elements).blocks b =
            s.blocks b := hbpres0
      have hext := lower_ext vc.body _ _ hlm
      simp only [List.map_cons] at hnd
      obtain ⟨hblk_nin, hndr⟩ := List.nodup_cons.mp hnd
      -- hypotheses of the induction hypothesis, at the post-body state
      have hltr : ∀ q ∈ rest, q.2 < sPost.nextBlock := by
        intro q hq
        have h0 := hlt q (List.mem_cons_of_mem _ hq)
        have h1 := hext.nextBlock_le
        rw [hbnb] at h1
        exact lt_of_lt_of_le h0 h1
      have hempr : ∀ q ∈ rest, sPost.blocks q.2 = some BlockData.empty := by
        intro q hq
        have hne : q.2 ≠ blk := by
          intro hEq
          exact hblk_nin (hEq ▸ List.mem_map_of_mem Prod.snd hq)
        have h1 : sPost.blocks q.2 =
            (bind_elements (switch_to_block blk s) src 0
              vc.elements).blocks q.2 :=
          hext.blocks_eq q.2 (by rw [hbcur]; exact hne)
            (by rw [hbnb]; exact hlt q (List.mem_cons_of_mem _ hq))
        rw [h1, hbpres q.2 hne]
        exact hemp q (List.mem_cons_of_mem _ hq)
      obtain ⟨ihle, ihpres, iharms⟩ := ih sPost src vf s2 h hndr hltr hempr
      have hsnb_le : s.nextBlock ≤ sPost.nextBlock := by
        have h1 := hext.nextBlock_le
        rwa [hbnb] at h1
      refine ⟨le_trans hsnb_le ihle, ?_, ?_⟩
      · intro b hb hbn
        simp only [List.map_cons, List.mem_cons] at hbn
        push_neg at hbn
        obtain ⟨hbne, hbnin⟩ := hbn
        rw [ihpres b (lt_of_lt_of_le hb hsnb_le) hbnin]
        rw [hext.blocks_eq b (by rw [hbcur]; exact hbne) (by rw [hbnb]; exact hb)]
        exact hbpres b hbne
      · intro q hq
        rcases List.mem_cons.mp hq with hq | hq
        · subst hq
          refine ⟨switch_to_block blk s, sPost, rfl,
            hemp _ (List.mem_cons_self _ _), ?_, ?_, hlm, ?_⟩
          · have h0 := hbcont0 BlockData.empty (hemp _ (List.mem_cons_self _ _))
            simpa using h0
          · intro e he hu
            exact (bind_elements_vars vc.elements (switch_to_block blk s)
              src 0).2 e he hu
          · exact ihpres blk
              (lt_of_lt_of_le (hlt _ (List.mem_cons_self _ _)) hsnb_le)
              hblk_nin
        · exact iharms q hq
    | diag sp m => rw [hlm] at h; dsimp only at h; cases h
    | panicked m => rw [hlm] at h; dsimp only at h; cases h

end K2S

namespace K2S

/-- C4: lowering a `Select` whose type class is Tuple invokes the native
`tuple_size` once, branches to `type_fail` if it reports an error, casts
the scrutinee to tuple, and dispatches on the returned arity with a single
`switch` whose default edge is `value_fail` and whose arms pair the
distinct clause arities, in ascending order and free of duplicates, with
one fresh block per clause; in each clause's block the non-`Unused` tuple
element variables are bound via `get_element_imm` before the clause body is
lowered with `value_fail` as its fail continuation. -/
theorem tuple_select_lowering
    (s : St) (varName : String) (values : List ValueClause)
    (type_fail value_fail : Block) (src : Value) (d : BlockData) (s2 : St)
    (hclt : s.cur < s.nextBlock)
    (hcurd : s.blocks s.cur = some d)
    (hsrc : lookup_var s varName = some src)
    (hok : lower_select_tuple s varName values type_fail value_fail =
      Res.ok () s2) :
    ((sort_by_key (values.map fun vc => (vc.elements.length, vc))).map
        Prod.fst).Perm (values.map fun vc => vc.elements.length) ∧
    List.Pairwise (· < ·)
      ((sort_by_key (values.map fun vc => (vc.elements.length, vc))).map
        Prod.fst) ∧
    s2.blocks s.cur = some
      ⟨d.params,
       d.insts ++
         [Inst.callFn s.nextValue (s.nextValue + 1) "tuple_size" [src],
          Inst.brIf s.nextValue type_fail [],
          Inst.cast (s.nextValue + 2) src Ty.tupleTy,
          Inst.switch (s.nextValue + 1)
            (((sort_by_key (values.map fun vc => (vc.elements.length, vc))).map
                Prod.fst).zip (List.range' s.nextBlock values.length))
            value_fail],
       true⟩ ∧
    ∀ p ∈ (sort_by_key (values.map fun vc => (vc.elements.length, vc))).zip
        (List.range' s.nextBlock values.length),
      ∃ sMid sPost : St,
        sMid.cur = p.2 ∧
        sMid.blocks p.2 = some BlockData.empty ∧
        (bind_elements sMid (s.nextValue + 2) 0 p.1.2.elements).blocks p.2 =
          some ⟨[], elem_binds (s.nextValue + 2) sMid.nextValue 0
            p.1.2.elements, false⟩ ∧
        (∀ e ∈ p.1.2.elements, ¬ e.unused = true →
          (lookup_var (bind_elements sMid (s.nextValue + 2) 0 p.1.2.elements)
            e.name).isSome = true) ∧
        lower_match (bind_elements sMid (s.nextValue + 2) 0 p.1.2.elements)
          value_fail p.1.2.body = Res.ok () sPost ∧
        s2.blocks p.2 = sPost.blocks p.2 := by
  -- the duplicate-arity scan must have passed, or lowering would have panicked
  have hdup : adjacent_dup
      ((sort_by_key (values.map fun vc => (vc.elements.length, vc))).map
        Prod.fst) = false := by
    cases hAd : adjacent_dup
        ((sort_by_key (values.map fun vc => (vc.elements.length, vc))).map
          Prod.fst) with
    | false => rfl
    | true =>
      simp only [lower_select_tuple, hAd, if_true] at hok
      cases hok
  simp only [lower_select_tuple, hdup, Bool.false_eq_true, if_false] at hok
  -- name the clause blocks and the states along the dispatch sequence
  rcases hcb : create_blocks
      (sort_by_key (values.map fun vc => (vc.elements.length, vc))).length s
    with ⟨blocks, s1⟩
  rw [hcb] at hok
  dsimp only at hok
  obtain ⟨hb1, hb2, hb3, hb4, hb5, hb6, hb7⟩ := create_blocks_spec
    (sort_by_key (values.map fun vc => (vc.elements.length, vc))).length s
  rw [hcb] at hb1 hb2 hb3 hb4 hb5 hb6 hb7
  dsimp only at hb1 hb2 hb3 hb4 hb5 hb6 hb7
  have hv1 : lookup_var s1 varName = some src := by
    show s1.vars varName = some src
    rw [hb5]
    exact hsrc
  rw [hv1] at hok
  dsimp only at hok
  rcases hec : emit_call "tuple_size" [src] s1 with ⟨⟨is_err, arity⟩, sA⟩
  rw [hec] at hok
  dsimp only at hok
  rcases he1 : emit1 (fun r => Inst.cast r src Ty.tupleTy) Ty.tupleTy
      (emit (Inst.brIf is_err type_fail []) sA) with ⟨src2, sB⟩
  rw [he1] at hok
  dsimp only at hok
  -- the fresh values handed out along the dispatch sequence
  have hie : is_err = s1.nextValue := by
    have h0 : ((is_err, arity), sA).1.1 = s1.nextValue := by rw [← hec]; rfl
    exact h0
  have har : arity = s1.nextValue + 1 := by
    have h0 : ((is_err, arity), sA).1.2 = s1.nextValue + 1 := by
      rw [← hec]; rfl
    exact h0
  have hAnv : sA.nextValue = s1.nextValue + 2 := by
    have h0 : ((is_err, arity), sA).2.nextValue = s1.nextValue + 2 := by
      rw [← hec]; rfl
    exact h0
  have hsrc2 : src2 = sA.nextValue := by
    have h0 : (src2, sB).1 =
        (emit (Inst.brIf is_err type_fail []) sA).nextValue := by
      rw [← he1]; rfl
    exact h0
  rw [hb4] at hie har hAnv
  rw [hAnv] at hsrc2
  subst hie
  subst har
  subst hsrc2
  -- footprint of the dispatch sequence: only the current block is touched
  have hocA : OnlyCur s1 sA := by
    have h0 := emit_call_onlyCur "tuple_size" [src] s1
    rw [hec] at h0
    exact h0
  have hocB : OnlyCur (emit (Inst.brIf s.nextValue type_fail []) sA) sB := by
    have h0 := emit1_onlyCur (fun r => Inst.cast r src Ty.tupleTy) Ty.tupleTy
      (emit (Inst.brIf s.nextValue type_fail []) sA)
    rw [he1] at h0
    exact h0
  have hocF : OnlyCur s1
      (emit (Inst.switch (s.nextValue + 1)
        (((sort_by_key (values.map fun vc => (vc.elements.length, vc))).map
          Prod.fst).zip blocks) value_fail) sB) :=
    ((hocA.trans (emit_onlyCur _ _)).trans hocB).trans (emit_onlyCur _ _)
  -- the dispatch block accumulates the four instructions
  have hs1cur : s1.cur = s.cur := hb3
  have hd1 : s1.blocks s1.cur = some d := by
    rw [hs1cur, hb6 s.cur hclt]
    exact hcurd
  have hdA : sA.blocks s.cur = some
      ⟨d.params,
       d.insts ++ [Inst.callFn s.nextValue (s.nextValue + 1) "tuple_size"
         [src]],
       d.terminated⟩ := by
    have h0 := emit_call_cur_insts "tuple_size" [src] hd1
    rw [hec] at h0
    rw [hs1cur] at h0
    rw [hb4] at h0
    exact h0
  have hAcur : sA.cur = s.cur := hocA.cur_eq.trans hs1cur
  have hXcur : (emit (Inst.brIf s.nextValue type_fail []) sA).cur = s.cur :=
    hAcur
  have hdB0 : (emit (Inst.brIf s.nextValue type_fail []) sA).blocks s.cur =
      some ⟨d.params,
        d.insts ++ [Inst.callFn s.nextValue (s.nextValue + 1) "tuple_size"
          [src], Inst.brIf s.nextValue type_fail []],
        d.terminated⟩ := by
    have h0 := emit_cur_insts (Inst.brIf s.nextValue type_fail [])
      (show sA.blocks sA.cur = some _ by rw [hAcur]; exact hdA)
    rw [hAcur] at h0
    simpa [Inst.isTerminator, List.append_assoc] using h0
  have hdC : sB.blocks s.cur = some
      ⟨d.params,
       d.insts ++ [Inst.callFn s.nextValue (s.nextValue + 1) "tuple_size"
         [src], Inst.brIf s.nextValue type_fail [],
         Inst.cast (s.nextValue + 2) src Ty.tupleTy],
       d.terminated⟩ := by
    have h0 := emit1_cur_insts (fun r => Inst.cast r src Ty.tupleTy)
      Ty.tupleTy
      (show (emit (Inst.brIf s.nextValue type_fail []) sA).blocks
          (emit (Inst.brIf s.nextValue type_fail []) sA).cur = some _ by
        rw [hXcur]; exact hdB0)
    rw [he1] at h0
    rw [hXcur] at h0
    have hXnv : (emit (Inst.brIf s.nextValue type_fail []) sA).nextValue =
        s.nextValue + 2 := hAnv
    rw [hXnv] at h0
    simpa [Inst.isTerminator, List.append_assoc] using h0
  have hBcur : sB.cur = s.cur := hocB.cur_eq.trans hXcur
  have hdF : (emit (Inst.switch (s.nextValue + 1)
      (((sort_by_key (values.map fun vc => (vc.elements.length, vc))).map
        Prod.fst).zip blocks) value_fail) sB).blocks s.cur = some
      ⟨d.params,
       d.insts ++ [Inst.callFn s.nextValue (s.nextValue + 1) "tuple_size"
         [src], Inst.brIf s.nextValue type_fail [],
         Inst.cast (s.nextValue + 2) src Ty.tupleTy,
         Inst.switch (s.nextValue + 1)
           (((sort_by_key (values.map fun vc => (vc.elements.length, vc))).map
             Prod.fst).zip blocks) value_fail],
       true⟩ := by
    have h0 := emit_cur_insts (Inst.switch (s.nextValue + 1)
      (((sort_by_key (values.map fun vc => (vc.elements.length, vc))).map
        Prod.fst).zip blocks) value_fail)
      (show sB.blocks sB.cur = some _ by rw [hBcur]; exact hdC)
    rw [hBcur] at h0
    simpa [Inst.isTerminator, List.append_assoc, Bool.or_true] using h0
  -- lengths and block names
  have hlen : (sort_by_key (values.map fun vc =>
      (vc.elements.length, vc))).length = values.length := by
    have h0 := (sort_by_key_perm
      (values.map fun vc => (vc.elements.length, vc))).length_eq
    simpa using h0
  have hblocks : blocks = List.range' s.nextBlock
      (sort_by_key (values.map fun vc => (vc.elements.length, vc))).length :=
    hb1
  rw [hlen] at hblocks
  subst hblocks
  rw [hlen] at hb7
  -- the hypotheses of the per-arm loop lemma
  have hFnb : (emit (Inst.switch (s.nextValue + 1)
      (((sort_by_key (values.map fun vc => (vc.elements.length, vc))).map
        Prod.fst).zip (List.range' s.nextBlock values.length)) value_fail)
      sB).nextBlock = s.nextBlock + values.length := by
    have h0 := hocF.nextBlock_eq
    rw [h0, hb2, hlen]
  have hmapsnd : (((sort_by_key (values.map fun vc =>
      (vc.elements.length, vc))).zip
        (List.range' s.nextBlock values.length)).map Prod.snd) =
      List.range' s.nextBlock values.length := by
    apply List.map_snd_zip
    simp [hlen]
  have hnodup_blocks : ((((sort_by_key (values.map fun vc =>
      (vc.elements.length, vc))).zip
        (List.range' s.nextBlock values.length)).map Prod.snd)).Nodup := by
    rw [hmapsnd]
    exact List.nodup_range' s.nextBlock values.length
  have harmlt : ∀ p ∈ (sort_by_key (values.map fun vc =>
      (vc.elements.length, vc))).zip (List.range' s.nextBlock values.length),
      p.2 < (emit (Inst.switch (s.nextValue + 1)
        (((sort_by_key (values.map fun vc => (vc.elements.length, vc))).map
          Prod.fst).zip (List.range' s.nextBlock values.length)) value_fail)
        sB).nextBlock := by
    intro p hp
    have h1 : p.2 ∈ List.range' s.nextBlock values.length :=
      (List.of_mem_zip hp).2
    have h2 := (List.mem_range'_1.mp h1).2
    rw [hFnb]
    exact h2
  have harmemp : ∀ p ∈ (sort_by_key (values.map fun vc =>
      (vc.elements.length, vc))).zip (List.range' s.nextBlock values.length),
      (emit (Inst.switch (s.nextValue + 1)
        (((sort_by_key (values.map fun vc => (vc.elements.length, vc))).map
          Prod.fst).zip (List.range' s.nextBlock values.length)) value_fail)
        sB).blocks p.2 = some BlockData.empty := by
    intro p hp
    have h1 : p.2 ∈ List.range' s.nextBlock values.length :=
      (List.of_mem_zip hp).2
    have hge := (List.mem_range'_1.mp h1).1
    have hne : p.2 ≠ s1.cur := by
      rw [hs1cur]
      intro hEq
      exact absurd (hEq ▸ hge) (not_le.mpr hclt)
    rw [hocF.blocks_eq p.2 hne]
    exact hb7 p.2 h1
  obtain ⟨hle, hpres, harms⟩ := lower_arms_spec _ _ (s.nextValue + 2)
    value_fail s2 hok hnodup_blocks harmlt harmemp
  refine ⟨?_, ?_, ?_, ?_⟩
  · have h0 := (sort_by_key_perm
      (values.map fun vc => (vc.elements.length, vc))).map Prod.fst
    simpa [List.map_map, Function.comp] using h0
  · exact sorted_lt_of_adjacent_dup_false _ (keys_sorted _) hdup
  · have h1 : s2.blocks s.cur = (emit (Inst.switch (s.nextValue + 1)
        (((sort_by_key (values.map fun vc => (vc.elements.length, vc))).map
          Prod.fst).zip (List.range' s.nextBlock values.length)) value_fail)
        sB).blocks s.cur := by
      apply hpres
      · rw [hFnb]
        exact lt_of_lt_of_le hclt (Nat.le_add_right _ _)
      · rw [hmapsnd]
        intro hmem
        exact absurd (List.mem_range'_1.mp hmem).1 (not_le.mpr hclt)
    rw [h1]
    exact hdF
  · exact harms

end K2S

namespace K2S

/-- Witness for `tuple_select_lowering` at the concrete two-clause Select
of `select_example`: lowering from `select_entry` succeeds and produces
the dispatch sequence and the two arity arms. -/
theorem tuple_select_lowering_witness :
    select_entry.cur < select_entry.nextBlock ∧
    select_entry.blocks select_entry.cur = some BlockData.empty ∧
    lookup_var select_entry "X" = some 0 ∧
    lower_select_tuple select_entry "X" select_example 1 1 =
      Res.ok () select_state ∧
    (((sort_by_key (select_example.map fun vc =>
        (vc.elements.length, vc))).map Prod.fst).Perm
      (select_example.map fun vc => vc.elements.length) ∧
     List.Pairwise (· < ·)
       ((sort_by_key (select_example.map fun vc =>
         (vc.elements.length, vc))).map Prod.fst) ∧
     select_state.blocks select_entry.cur = some
       ⟨BlockData.empty.params,
        BlockData.empty.insts ++
          [Inst.callFn select_entry.nextValue (select_entry.nextValue + 1)
            "tuple_size" [0],
           Inst.brIf select_entry.nextValue 1 [],
           Inst.cast (select_entry.nextValue + 2) 0 Ty.tupleTy,
           Inst.switch (select_entry.nextValue + 1)
             (((sort_by_key (select_example.map fun vc =>
               (vc.elements.length, vc))).map Prod.fst).zip
               (List.range' select_entry.nextBlock select_example.length)) 1],
        true⟩ ∧
     ∀ p ∈ (sort_by_key (select_example.map fun vc =>
         (vc.elements.length, vc))).zip
         (List.range' select_entry.nextBlock select_example.length),
       ∃ sMid sPost : St,
         sMid.cur = p.2 ∧
         sMid.blocks p.2 = some BlockData.empty ∧
         (bind_elements sMid (select_entry.nextValue + 2) 0
           p.1.2.elements).blocks p.2 =
           some ⟨[], elem_binds (select_entry.nextValue + 2) sMid.nextValue 0
             p.1.2.elements, false⟩ ∧
         (∀ e ∈ p.1.2.elements, ¬ e.unused = true →
           (lookup_var (bind_elements sMid (select_entry.nextValue + 2) 0
             p.1.2.elements) e.name).isSome = true) ∧
         lower_match (bind_elements sMid (select_entry.nextValue + 2) 0
           p.1.2.elements) 1 p.1.2.body = Res.ok () sPost ∧
         select_state.blocks p.2 = sPost.blocks p.2) :=
  ⟨by decide, rfl, rfl, rfl,
   tuple_select_lowering select_entry "X" select_example 1 1 0
     BlockData.empty select_state (by decide) rfl rfl rfl⟩

end K2S

end Firefly
